import Mathlib

/-!
Verification of the AI-review response pipeline of the burg-ai repository.

The definitions below are a shallow embedding of the TypeScript sources:

- src/server/src/utils/schema-validation.ts
  (classifySeverity, getSeverityClassification, the GeminiLLMService class:
   generateEnhancedReview retry loop, extractValidJson,
   reconstructJsonFromFragments, generateFallbackComments,
   determineFallbackSeverity, generateFileSpecificFallbackMessage,
   validateAndRepairComment, performFinalValidation, validateStructuredReview,
   createFallbackComment)
- src/server/src/utils/enhanced-ai-review.ts
  (the EnhancedAIReviewService class: extractValidJson,
   generateFallbackComments)
- the RepoConfig model file (RepoConfigService.getEffectiveThresholds,
  RepoConfigService.filterComments)

Strings are modelled as Lean String values (operated on through their
character lists).  JavaScript numbers that are used as integers are modelled
as Int or Nat.  The Math.random() draws of the comment filter are modelled by
an injected sequence of rational numbers in the unit interval, and the
outcome of one model-API attempt of the retry loop is modelled by an injected
function from the attempt index to an outcome value.  Asynchronous calls that
can throw are modelled by explicit Option / Bool parameters.
-/

/-! ## Basic string utilities (JavaScript semantics) -/

/-- The whitespace class used by JavaScript trim and the regex class \s
(restricted to the ASCII characters that occur in model responses). -/
def isJsWs (c : Char) : Bool :=
  c = ' ' || c = '\t' || c = '\n' || c = '\r' || c = '\x0c' || c = '\x0b'

/-- Model of String.prototype.trim on character lists. -/
def jsTrimL (cs : List Char) : List Char :=
  ((cs.dropWhile isJsWs).reverse.dropWhile isJsWs).reverse

/-- Model of String.prototype.trim. -/
def jsTrim (s : String) : String :=
  String.mk (jsTrimL s.data)

/-- Model of String.prototype.toLowerCase (the keyword sets are ASCII). -/
def jsLower (s : String) : String :=
  String.mk (s.data.map Char.toLower)

/-- Containment of one character list in another, the semantics of
String.prototype.includes. -/
def containsSub (hay needle : List Char) : Bool :=
  match hay with
  | [] => needle.isEmpty
  | _ :: rest => needle.isPrefixOf hay || containsSub rest needle

/-- Model of hay.includes(needle) on strings. -/
def strIncludes (hay needle : String) : Bool :=
  containsSub hay.data needle.data

/-- Splitting a character list at a separator character, the semantics of
String.prototype.split with a one-character separator. -/
def splitOnCharGo (sep : Char) : List Char → List Char → List (List Char)
  | [], acc => [acc.reverse]
  | c :: rest, acc =>
    if c = sep then acc.reverse :: splitOnCharGo sep rest []
    else splitOnCharGo sep rest (c :: acc)

/-- Split a character list on a separator character. -/
def splitOnChar (sep : Char) (cs : List Char) : List (List Char) :=
  splitOnCharGo sep cs []

/-- The last element of a split, the semantics of s.split(sep).pop()
(split always yields a non-empty array, so pop is total). -/
def lastOfSplit (sep : Char) (s : String) : String :=
  String.mk ((splitOnChar sep s.data).getLastD [])

/-- First-occurrence deduplication, the semantics of spreading a Set built
from an array. -/
def dedupFirstGo : List String → List String → List String
  | [], _ => []
  | x :: xs, seen =>
    if seen.contains x then dedupFirstGo xs seen
    else x :: dedupFirstGo xs (x :: seen)

/-- Model of the unique-files construction spreading a Set. -/
def dedupFirst (l : List String) : List String :=
  dedupFirstGo l []

/-- The opening-brace character, written by code point to keep brace
characters out of string literals. -/
def lbrace : Char := Char.ofNat 123

/-- The closing-brace character. -/
def rbrace : Char := Char.ofNat 125

/-- The backtick character. -/
def btick : Char := Char.ofNat 96

/-! ## Severity classifier (schema-validation.ts, getSeverityClassification
and classifySeverity) -/

/-- The keyword-to-severity table returned by getSeverityClassification, in
source insertion order (Object.entries iterates string keys in insertion
order). -/
def severityClassification : List (String × String) :=
  [ ("security", "critical"),
    ("vulnerability", "critical"),
    ("security-issue", "critical"),
    ("bug", "critical"),
    ("error", "critical"),
    ("runtime-error", "critical"),
    ("null-pointer", "critical"),
    ("infinite-loop", "critical"),
    ("crash", "critical"),
    ("deadlock", "critical"),
    ("performance", "major"),
    ("memory-leak", "major"),
    ("optimization", "major"),
    ("complexity", "major"),
    ("maintainability", "major"),
    ("code-smell", "major"),
    ("technical-debt", "major"),
    ("scalability", "major"),
    ("reliability", "major"),
    ("error-handling", "major"),
    ("style", "minor"),
    ("formatting", "minor"),
    ("naming", "minor"),
    ("documentation", "minor"),
    ("comment", "minor"),
    ("code-style", "minor"),
    ("convention", "minor"),
    ("best-practice", "minor"),
    ("nitpick", "minor"),
    ("suggestion", "minor") ]

/-- Model of classifySeverity: lower-case the concatenation of message and
rationale, scan the table once for a critical keyword contained in the text,
then once for a major keyword, defaulting to minor.  The two for loops with
early return are modelled by List.any over the same table. -/
def classifySeverity (message rationale : String) : String :=
  let text := jsLower (message ++ " " ++ rationale)
  if severityClassification.any
      (fun kv => kv.2 = "critical" && strIncludes text kv.1) then "critical"
  else if severityClassification.any
      (fun kv => kv.2 = "major" && strIncludes text kv.1) then "major"
  else "minor"

/-- Modelled from the spec sentence quoted by claim C8: ordered keyword
matching with critical tier (security, vulnerability, bug, crash, deadlock,
null-pointer, infinite-loop), then major tier (performance, memory-leak,
complexity, error-handling, scalability), else minor.  This definition
follows the claim wording and is compared against classifySeverity. -/
def classifySeverityClaim (message rationale : String) : String :=
  let text := jsLower (message ++ " " ++ rationale)
  if ["security", "vulnerability", "bug", "crash", "deadlock",
      "null-pointer", "infinite-loop"].any (fun kw => strIncludes text kw)
  then "critical"
  else if ["performance", "memory-leak", "complexity", "error-handling",
      "scalability"].any (fun kw => strIncludes text kw)
  then "major"
  else "minor"

/-! ## Review data model and validation (schema-validation.ts) -/

/-- A review comment as produced by the pipeline.  The severity is kept as a
string because the database-readiness validation checks it against the
three-value enumeration at run time. -/
structure ReviewComment where
  filePath : String
  line : Int
  severity : String
  message : String
  rationale : String
  suggestion : Option String
deriving Repr, DecidableEq

/-- A structured review: summary plus comments.  The optional metadata of
the TypeScript interface plays no role in the validated claims and is
computed, never read, by the modelled code paths. -/
structure StructuredAIReview where
  summary : String
  comments : List ReviewComment
deriving Repr, DecidableEq

/-- The result record of GeminiLLMService.validateStructuredReview. -/
structure ReviewValidationResult where
  isValid : Bool
  validatedResponse : StructuredAIReview
  errors : List String
deriving Repr

/-- The per-comment required-field checks of validateStructuredReview, in
source order, producing the comment error list.  Falsy string checks model
the empty string; the typeof checks are discharged by the typed embedding. -/
def commentCheckErrors (c : ReviewComment) : List String :=
  (if c.filePath = "" then ["filePath is required"] else []) ++
  (if c.message = "" || jsTrim c.message = "" then
    ["message is required and must be non-empty"] else []) ++
  (if c.rationale = "" || jsTrim c.rationale = "" then
    ["rationale is required and must be non-empty"] else []) ++
  (if ["critical", "major", "minor"].contains c.severity then []
   else ["severity must be critical, major, or minor"]) ++
  (if c.line < 1 then ["line must be a positive number"] else [])

/-- A comment passes the database-readiness check of
validateStructuredReview when its error list is empty. -/
def commentCheckOk (c : ReviewComment) : Bool :=
  (commentCheckErrors c).isEmpty

/-- The normalisation applied to a comment that passed the per-comment
checks: message and rationale are trimmed, a missing or trim-empty
suggestion falls back to the untrimmed message. -/
def normalizeComment (c : ReviewComment) : ReviewComment :=
  { c with
    message := jsTrim c.message
    rationale := jsTrim c.rationale
    suggestion := some (match c.suggestion with
      | some s => if jsTrim s = "" then c.message else jsTrim s
      | none => c.message) }

/-- Model of GeminiLLMService.validateStructuredReview.  The summary error
replaces the summary with the default text (in-place mutation in the
source); invalid comments are skipped, valid ones are normalised; the result
is valid when no summary or array errors occurred and at least one comment
survived. -/
def GeminiLLMService.validateStructuredReview (review : StructuredAIReview) :
    ReviewValidationResult :=
  let summaryBad := review.summary = "" || jsTrim review.summary = ""
  let errors :=
    if summaryBad then ["Summary is required and must be a non-empty string"]
    else []
  let summary1 :=
    if summaryBad then "Code review completed with automated analysis"
    else review.summary
  let validatedComments :=
    (review.comments.filter commentCheckOk).map normalizeComment
  { isValid := errors.isEmpty && !validatedComments.isEmpty
    validatedResponse := { summary := jsTrim summary1, comments := validatedComments }
    errors := errors }

/-- The hard-coded comment used by performFinalValidation when the fallback
comment list is empty. -/
def finalGateDefaultComment : ReviewComment :=
  { filePath := "unknown"
    line := 1
    severity := "minor"
    message := "Automated code review system encountered an error. Manual review required."
    rationale := "The AI review system was unable to complete analysis due to technical issues."
    suggestion := some "Please conduct a comprehensive manual code review for this pull request." }

/-- The emergency comment substituted when even the fallback response fails
validation. -/
def finalGateEmergencyComment : ReviewComment :=
  { filePath := "unknown"
    line := 1
    severity := "minor"
    message := "Code review system error occurred"
    rationale := "Technical issue prevented automated analysis"
    suggestion := some "Manual review required" }

/-- The result record of GeminiLLMService.performFinalValidation. -/
structure FinalValidationResult where
  isValid : Bool
  validatedResponse : StructuredAIReview
  fallbackUsed : Bool
deriving Repr

/-- The fallback branch of performFinalValidation: build a response from the
fallback comments (or the hard-coded default), re-validate it, and replace
the comments by the emergency comment when that validation fails.  Note the
source returns the fallbackResponse object itself, not the validated copy
computed by validateStructuredReview. -/
def GeminiLLMService.finalFallbackResponse (fallbackComments : List ReviewComment) :
    StructuredAIReview :=
  let fallbackResponse : StructuredAIReview :=
    { summary := "Automated code review encountered technical difficulties. Manual review recommended."
      comments :=
        if fallbackComments.isEmpty then [finalGateDefaultComment]
        else fallbackComments }
  let fallbackValidation := GeminiLLMService.validateStructuredReview fallbackResponse
  if fallbackValidation.isValid then fallbackResponse
  else { fallbackResponse with comments := [finalGateEmergencyComment] }

/-- Model of GeminiLLMService.performFinalValidation: accept a parsed
response that passes validateStructuredReview (returning its validated
copy), otherwise fall back. -/
def GeminiLLMService.performFinalValidation
    (parsedResponse : Option StructuredAIReview)
    (fallbackComments : List ReviewComment) : FinalValidationResult :=
  match parsedResponse with
  | some parsed =>
    let validation := GeminiLLMService.validateStructuredReview parsed
    if validation.isValid then
      { isValid := true
        validatedResponse := validation.validatedResponse
        fallbackUsed := false }
    else
      { isValid := false
        validatedResponse := GeminiLLMService.finalFallbackResponse fallbackComments
        fallbackUsed := true }
  | none =>
    { isValid := false
      validatedResponse := GeminiLLMService.finalFallbackResponse fallbackComments
      fallbackUsed := true }

/-- Modelled from the claim C1 wording: a comment is schema-valid when
filePath, message and rationale are non-empty, the severity is in the
three-value enumeration, and the line is at least 1. -/
def commentSchemaValidClaim (c : ReviewComment) : Bool :=
  c.filePath ≠ "" && c.message ≠ "" && c.rationale ≠ "" &&
  ["critical", "major", "minor"].contains c.severity && 1 ≤ c.line

/-- Modelled from the claim C1 wording: a review passes full structural
validation when the summary is non-empty and every comment is schema-valid. -/
def reviewSchemaValidClaim (r : StructuredAIReview) : Bool :=
  r.summary ≠ "" && r.comments.all commentSchemaValidClaim

/-! ## Fallback comment generation (both service variants) -/

/-- One changed file of a pull-request context. -/
structure ChangedFile where
  path : String
  patch : String
  additions : Nat
  deletions : Nat
deriving Repr, DecidableEq

/-- The pull-request context consumed by the review pipeline. -/
structure PRContext where
  repo : String
  prNumber : Nat
  changedFiles : List ChangedFile
deriving Repr, DecidableEq

/-- Model of createFallbackComment (schema-validation.ts, module level). -/
def createFallbackComment (filePath : String) (line : Int) (rawMessage : String) :
    ReviewComment :=
  { filePath := filePath
    line := line
    severity := "minor"
    message := "Unable to parse AI suggestion"
    rationale := "The AI provided feedback that could not be properly structured. Manual review recommended."
    suggestion := some (String.mk (rawMessage.data.take 500)) }

/-- Model of GeminiLLMService.generateFileSpecificFallbackMessage: an
extension-specific message mentioning the total change count. -/
def GeminiLLMService.generateFileSpecificFallbackMessage
    (fileName fileExtension : String) (additions deletions : Nat) : String :=
  let totalChanges := toString (additions + deletions)
  if fileExtension = "ts" || fileExtension = "tsx" then
    "TypeScript file " ++ fileName ++ " has " ++ totalChanges ++
      " changes. Manual review recommended for type safety and code quality."
  else if fileExtension = "js" || fileExtension = "jsx" then
    "JavaScript file " ++ fileName ++ " has " ++ totalChanges ++
      " changes. Manual review recommended for potential runtime issues."
  else if fileExtension = "py" then
    "Python file " ++ fileName ++ " has " ++ totalChanges ++
      " changes. Manual review recommended for code quality and best practices."
  else if fileExtension = "java" then
    "Java file " ++ fileName ++ " has " ++ totalChanges ++
      " changes. Manual review recommended for object-oriented design."
  else if fileExtension = "go" then
    "Go file " ++ fileName ++ " has " ++ totalChanges ++
      " changes. Manual review recommended for concurrency and error handling."
  else if fileExtension = "rs" then
    "Rust file " ++ fileName ++ " has " ++ totalChanges ++
      " changes. Manual review recommended for memory safety and performance."
  else if fileExtension = "json" || fileExtension = "yaml" || fileExtension = "yml" then
    "Configuration file " ++ fileName ++ " has " ++ totalChanges ++
      " changes. Manual review recommended for correctness."
  else if fileExtension = "md" then
    "Documentation file " ++ fileName ++ " has " ++ totalChanges ++
      " changes. Manual review recommended for accuracy."
  else
    "File " ++ fileName ++ " has " ++ totalChanges ++
      " changes. Manual review recommended for code quality."

/-- Model of GeminiLLMService.determineFallbackSeverity. -/
def GeminiLLMService.determineFallbackSeverity
    (additions deletions : Nat) (fileExtension : String) : String :=
  let totalChanges := additions + deletions
  let isHighRisk :=
    ["ts", "tsx", "js", "jsx", "py", "java", "go", "rs"].contains fileExtension
  if isHighRisk && 100 < totalChanges then "critical"
  else if isHighRisk && 20 < totalChanges then "major"
  else if 200 < totalChanges then "major"
  else "minor"

/-- One fallback comment of GeminiLLMService.generateFallbackComments for a
file path at a given position of the unique-file list. -/
def GeminiLLMService.fallbackCommentFor (rawResponse : String) (ctx : PRContext)
    (filePath : String) (index : Nat) : ReviewComment :=
  let hasPartialResponse :=
    strIncludes rawResponse "\"summary\"" || strIncludes rawResponse "\"comments\""
  let responseLength := rawResponse.data.length
  let isLongResponse := 1000 < responseLength
  let fileInfo := ctx.changedFiles.find? (fun f => f.path = filePath)
  let fileName0 := lastOfSplit '/' filePath
  let fileName := if fileName0 = "" then "file" else fileName0
  let fileExtension := jsLower (lastOfSplit '.' fileName)
  let additions := (fileInfo.map ChangedFile.additions).getD 0
  let deletions := (fileInfo.map ChangedFile.deletions).getD 0
  let (message, severity, rationale) :=
    if hasPartialResponse && isLongResponse then
      ("AI analysis partially completed for " ++ fileName ++
         ". The response was truncated but indicates potential issues exist.",
       (if 50 < additions || 50 < deletions then "major" else "minor"),
       "The AI model generated a response but it was incomplete or malformed. Manual review is strongly recommended.")
    else if responseLength < 100 then
      ("AI review failed for " ++ fileName ++
         " due to API communication issues. Manual inspection required.",
       "major",
       "The AI service returned an incomplete or empty response, indicating a technical issue with the analysis.")
    else
      (GeminiLLMService.generateFileSpecificFallbackMessage fileName fileExtension additions deletions,
       GeminiLLMService.determineFallbackSeverity additions deletions fileExtension,
       "Automated code review encountered a parsing error. Manual code review is recommended to ensure code quality.")
  { filePath := filePath
    line := max 1 ((Int.ofNat index + 1) * 10)
    severity := severity
    message := message
    rationale := rationale
    suggestion := some ("Please manually review " ++ fileName ++
      " for potential issues, especially in areas with significant changes (" ++
      toString additions ++ " additions, " ++ toString deletions ++ " deletions).") }

/-- Mapping with the element index, the semantics of Array.forEach with an
index parameter collecting pushed elements. -/
def mapWithIndexGo {α β : Type} (f : α → Nat → β) : List α → Nat → List β
  | [], _ => []
  | x :: xs, i => f x i :: mapWithIndexGo f xs (i + 1)

/-- Model of GeminiLLMService.generateFallbackComments: one comment per
distinct changed-file path, plus the guaranteed single comment when the list
comes out empty.  The catch branch of the source is unreachable in the
embedding (no operation inside the try can throw) and is not modelled. -/
def GeminiLLMService.generateFallbackComments (rawResponse : String)
    (ctx : PRContext) : List ReviewComment :=
  let uniqueFiles := dedupFirst (ctx.changedFiles.map ChangedFile.path)
  let fallbackComments :=
    mapWithIndexGo (GeminiLLMService.fallbackCommentFor rawResponse ctx) uniqueFiles 0
  if fallbackComments.isEmpty then
    [{ filePath :=
         match ctx.changedFiles.head? with
         | some f => if f.path = "" then "unknown" else f.path
         | none => "unknown"
       line := 1
       severity := "minor"
       message := "Automated code review encountered technical difficulties. Manual review recommended."
       rationale := "The AI review system was unable to complete analysis due to technical issues."
       suggestion := some "Please conduct a comprehensive manual code review for this pull request." }]
  else fallbackComments

/-- Model of EnhancedAIReviewService.generateFallbackComments
(enhanced-ai-review.ts): one createFallbackComment per distinct changed-file
path.  The fileLines computation of the source is dead code (its result is
never read) and is not modelled; the catch branch is unreachable in the
embedding.  Note there is no guaranteed comment for an empty changed-file
list in this variant. -/
def EnhancedAIReviewService.generateFallbackComments (rawResponse : String)
    (ctx : PRContext) : List ReviewComment :=
  let uniqueFiles := dedupFirst (ctx.changedFiles.map ChangedFile.path)
  uniqueFiles.map (fun filePath =>
    createFallbackComment filePath 1
      ("AI analysis completed but response format was invalid. Manual review recommended. Raw response: " ++
        String.mk (rawResponse.data.take 200)))

/-! ## A JSON syntax checker modelling JSON.parse success -/

/-- JSON whitespace (the ws production of the JSON grammar). -/
def isJsonWsC (c : Char) : Bool :=
  c = ' ' || c = '\t' || c = '\n' || c = '\r'

/-- Skip JSON whitespace. -/
def skipWsL (cs : List Char) : List Char := cs.dropWhile isJsonWsC

/-- ASCII decimal digit test. -/
def isDigitC (c : Char) : Bool := '0' ≤ c && c ≤ '9'

/-- ASCII hexadecimal digit test. -/
def isHexC (c : Char) : Bool :=
  isDigitC c || ('a' ≤ c && c ≤ 'f') || ('A' ≤ c && c ≤ 'F')

/-- Parse the body of a JSON string after the opening quote, returning the
input remaining after the closing quote.  Raw control characters are
rejected, escape sequences follow the JSON grammar. -/
def parseStrBody : List Char → Option (List Char)
  | [] => none
  | c :: rest =>
    if c = '"' then some rest
    else if c = '\\' then
      match rest with
      | [] => none
      | e :: r2 =>
        if e = '"' || e = '\\' || e = '/' || e = 'b' || e = 'f' ||
            e = 'n' || e = 'r' || e = 't' then
          parseStrBody r2
        else if e = 'u' then
          match r2 with
          | h1 :: h2 :: h3 :: h4 :: r3 =>
            if isHexC h1 && isHexC h2 && isHexC h3 && isHexC h4 then parseStrBody r3
            else none
          | _ => none
        else none
    else if c.toNat < 32 then none
    else parseStrBody rest

/-- Consume one or more decimal digits. -/
def parseDigits1 : List Char → Option (List Char)
  | [] => none
  | c :: rest => if isDigitC c then some (rest.dropWhile isDigitC) else none

/-- Consume the integer part of a JSON number after the optional sign:
a single zero, or a nonzero digit followed by digits. -/
def parseIntPart : List Char → Option (List Char)
  | [] => none
  | c :: rest =>
    if c = '0' then some rest
    else if isDigitC c then some (rest.dropWhile isDigitC)
    else none

/-- Parse a JSON number (sign, integer part, optional fraction, optional
exponent), returning the remaining input. -/
def parseNumber (cs : List Char) : Option (List Char) :=
  let cs1 := match cs with
    | c :: r => if c = '-' then r else cs
    | [] => cs
  (parseIntPart cs1).bind fun r1 =>
    (match r1 with
     | c :: r2 => if c = '.' then parseDigits1 r2 else some r1
     | [] => some r1).bind fun r3 =>
      match r3 with
      | c :: r4 =>
        if c = 'e' || c = 'E' then
          match r4 with
          | s :: r5 => if s = '+' || s = '-' then parseDigits1 r5 else parseDigits1 r4
          | [] => none
        else some r3
      | [] => some r3

/-- Parser modes of the recursive JSON checker: a value, the member list of
an object after consumed whitespace, and the continuation of an array after
an element. -/
inductive PMode where
  | value
  | member
  | elemCont
deriving Repr, DecidableEq

/-- Recursive-descent JSON checker.  The fuel bounds the recursion depth;
every recursive call strictly consumes input first, so fuel equal to the
input length plus one never runs out and the checker decides exactly the
JSON grammar. -/
def parseRun : Nat → PMode → List Char → Option (List Char)
  | 0, _, _ => none
  | fuel + 1, PMode.value, cs =>
    match cs with
    | [] => none
    | c :: rest =>
      if c = lbrace then
        match skipWsL rest with
        | [] => none
        | b :: r2 => if b = rbrace then some r2 else parseRun fuel PMode.member (b :: r2)
      else if c = '[' then
        match skipWsL rest with
        | [] => none
        | b :: r2 =>
          if b = ']' then some r2
          else (parseRun fuel PMode.value (b :: r2)).bind (parseRun fuel PMode.elemCont)
      else if c = '"' then parseStrBody rest
      else if c = 't' then
        match rest with
        | 'r' :: 'u' :: 'e' :: r2 => some r2
        | _ => none
      else if c = 'f' then
        match rest with
        | 'a' :: 'l' :: 's' :: 'e' :: r2 => some r2
        | _ => none
      else if c = 'n' then
        match rest with
        | 'u' :: 'l' :: 'l' :: r2 => some r2
        | _ => none
      else if c = '-' || isDigitC c then parseNumber cs
      else none
  | fuel + 1, PMode.member, cs =>
    match cs with
    | [] => none
    | c :: rest =>
      if c = '"' then
        (parseStrBody rest).bind fun r1 =>
          match skipWsL r1 with
          | c2 :: r2 =>
            if c2 = ':' then
              (parseRun fuel PMode.value (skipWsL r2)).bind fun r3 =>
                match skipWsL r3 with
                | d :: r4 =>
                  if d = rbrace then some r4
                  else if d = ',' then parseRun fuel PMode.member (skipWsL r4)
                  else none
                | [] => none
            else none
          | [] => none
      else none
  | fuel + 1, PMode.elemCont, cs =>
    match skipWsL cs with
    | d :: r1 =>
      if d = ']' then some r1
      else if d = ',' then
        (parseRun fuel PMode.value (skipWsL r1)).bind (parseRun fuel PMode.elemCont)
      else none
    | [] => none

/-- A character list parses as a JSON document: leading whitespace, one
value, trailing whitespace, end of input. -/
def jsonValidL (cs : List Char) : Bool :=
  match parseRun (cs.length + 1) PMode.value (skipWsL cs) with
  | some r => (skipWsL r).isEmpty
  | none => false

/-- Model of: JSON.parse(s) succeeds. -/
def jsonValid (s : String) : Bool := jsonValidL s.data

/-! ## JSON printing, modelling JSON.stringify on the reconstructed documents -/

/-- The lower-case hexadecimal digit characters. -/
def hexDigitChar (n : Nat) : Char :=
  if n < 10 then Char.ofNat (48 + n)
  else if n < 16 then Char.ofNat (87 + n)
  else '0'

/-- Escape one character the way JSON.stringify escapes string contents. -/
def escChar (c : Char) : List Char :=
  if c = '"' then ['\\', '"']
  else if c = '\\' then ['\\', '\\']
  else if c = '\x08' then ['\\', 'b']
  else if c = '\t' then ['\\', 't']
  else if c = '\n' then ['\\', 'n']
  else if c = '\x0c' then ['\\', 'f']
  else if c = '\r' then ['\\', 'r']
  else if c.toNat < 32 then
    ['\\', 'u', '0', '0', hexDigitChar (c.toNat / 16), hexDigitChar (c.toNat % 16)]
  else [c]

/-- Escape a string body. -/
def escStringL : List Char → List Char
  | [] => []
  | c :: rest => escChar c ++ escStringL rest

/-- Print a JSON string literal. -/
def printStrL (s : List Char) : List Char := '"' :: escStringL s ++ ['"']

/-- One decimal digit character. -/
def digitChar (n : Nat) : Char := Char.ofNat (48 + n)

/-- Decimal digits of a natural number, most significant first (fuel
structural; the initial fuel always suffices). -/
def natDigitsGo : Nat → Nat → List Char
  | 0, _ => []
  | fuel + 1, n =>
    if n < 10 then [digitChar n]
    else natDigitsGo fuel (n / 10) ++ [digitChar (n % 10)]

/-- Decimal representation of a natural number. -/
def natDigitsL (n : Nat) : List Char := natDigitsGo (n + 1) n

/-- A comment fragment recovered by reconstructJsonFromFragments: the four
fields extracted by the targeted regexes. -/
structure FragComment where
  filePath : List Char
  line : Nat
  code : List Char
  severity : List Char
deriving Repr, DecidableEq

/-- A reconstructed document: summary plus comment fragments. -/
structure FragDoc where
  summary : List Char
  comments : List FragComment
deriving Repr, DecidableEq

/-- Print one fragment as JSON.stringify prints the corresponding object
(insertion order filePath, line, code, severity; no whitespace). -/
def printFragL (f : FragComment) : List Char :=
  lbrace :: (printStrL "filePath".data ++ ':' :: printStrL f.filePath ++
    ',' :: printStrL "line".data ++ ':' :: natDigitsL f.line ++
    ',' :: printStrL "code".data ++ ':' :: printStrL f.code ++
    ',' :: printStrL "severity".data ++ ':' :: printStrL f.severity ++ [rbrace])

/-- Print the comment array elements separated by commas. -/
def joinFragsL : List FragComment → List Char
  | [] => []
  | [f] => printFragL f
  | f :: rest => printFragL f ++ ',' :: joinFragsL rest

/-- Print a reconstructed document as JSON.stringify prints it. -/
def stringifyDocL (d : FragDoc) : List Char :=
  lbrace :: (printStrL "summary".data ++ ':' :: printStrL d.summary ++
    ',' :: printStrL "comments".data ++ ':' :: '[' :: joinFragsL d.comments ++
    (']' :: [rbrace]))

/-! ## The JSON recovery pipeline (both extractValidJson variants) -/

/-- The word-character class of the regex token backslash-w. -/
def wordChar (c : Char) : Bool := c.isAlphanum || c = '_'

/-- The three-backtick json fence token. -/
def fenceJsonTok : List Char := [btick, btick, btick, 'j', 's', 'o', 'n']

/-- The three-backtick jsonc fence token. -/
def fenceJsoncTok : List Char := [btick, btick, btick, 'j', 's', 'o', 'n', 'c']

/-- The bare three-backtick fence token. -/
def fenceTok : List Char := [btick, btick, btick]

/-- Global replacement by the empty string of a literal token followed by an
optional newline: scan left to right, remove each non-overlapping
occurrence, advance one character otherwise. -/
def stripTokNlGo (tok : List Char) : Nat → List Char → List Char
  | _, [] => []
  | 0, cs => cs
  | fuel + 1, c :: rest =>
    if !tok.isEmpty && tok.isPrefixOf (c :: rest) then
      match (c :: rest).drop tok.length with
      | '\n' :: r2 => stripTokNlGo tok fuel r2
      | r2 => stripTokNlGo tok fuel r2
    else c :: stripTokNlGo tok fuel rest

/-- Remove every occurrence of a token with an optional trailing newline. -/
def stripTokNl (tok cs : List Char) : List Char :=
  stripTokNlGo tok (cs.length + 1) cs

/-- The largest offset p of the run, with at least one word character
before it, at which the literal jsonc starts.  This is the occurrence the
greedy first group of the repeated-token pattern leaves for the second
group, and maximality forces exactly one repetition. -/
def lastJsoncPos (run : List Char) : Option Nat :=
  ((List.range (run.length + 1)).filter
    (fun p => decide (1 ≤ p) && (['j', 's', 'o', 'n', 'c'].isPrefixOf (run.drop p)))).getLast?

/-- Global replacement of the pattern: word characters followed by one or
more literal jsonc repetitions, replaced by the first group.  A match must
lie inside one maximal word run; the replacement keeps the prefix before
the final jsonc occurrence of the run and scanning resumes after it. -/
def collapseWordJsoncGo : Nat → List Char → List Char
  | _, [] => []
  | 0, cs => cs
  | fuel + 1, c :: rest =>
    if wordChar c then
      match lastJsoncPos ((c :: rest).takeWhile wordChar) with
      | some p =>
        ((c :: rest).takeWhile wordChar).take p ++
          collapseWordJsoncGo fuel ((c :: rest).drop (p + 5))
      | none => c :: collapseWordJsoncGo fuel rest
    else c :: collapseWordJsoncGo fuel rest

/-- Collapse repeated jsonc tokens after word characters. -/
def collapseWordJsonc (cs : List Char) : List Char :=
  collapseWordJsoncGo (cs.length + 1) cs

/-- Global replacement of the pattern: literal json followed by one or more
word characters, replaced by json; the greedy groups consume the maximal
word run after the literal. -/
def collapseJsonWordGo : Nat → List Char → List Char
  | _, [] => []
  | 0, cs => cs
  | fuel + 1, 'j' :: 's' :: 'o' :: 'n' :: d :: r2 =>
    if wordChar d then
      'j' :: 's' :: 'o' :: 'n' :: collapseJsonWordGo fuel (r2.dropWhile wordChar)
    else 'j' :: collapseJsonWordGo fuel ('s' :: 'o' :: 'n' :: d :: r2)
  | fuel + 1, c :: rest => c :: collapseJsonWordGo fuel rest

/-- Collapse word characters after a json literal. -/
def collapseJsonWord (cs : List Char) : List Char :=
  collapseJsonWordGo (cs.length + 1) cs

/-- The markdown and repeated-token cleanup shared by both extractValidJson
variants, in source order: the json fence, the jsonc fence, the bare fence,
every backtick, then the two repeated-token collapses. -/
def cleanupResponse (cs : List Char) : List Char :=
  let c1 := stripTokNl fenceJsonTok cs
  let c2 := stripTokNl fenceJsoncTok c1
  let c3 := stripTokNl fenceTok c2
  let c4 := c3.filter (fun c => c ≠ btick)
  collapseJsonWord (collapseWordJsonc c4)

/-- Slice between the first opening brace and the last closing brace, the
semantics of indexOf, lastIndexOf and substring (substring swaps its bounds
when the start exceeds the end). -/
def extractBraceSlice (cs : List Char) : Option (List Char) :=
  match cs.findIdx? (fun c => c = lbrace), cs.reverse.findIdx? (fun c => c = rbrace) with
  | some openIdx, some revIdx =>
    let lastClose := cs.length - 1 - revIdx
    let lo := min openIdx (lastClose + 1)
    let hi := max openIdx (lastClose + 1)
    some ((cs.drop lo).take (hi - lo))
  | _, _ => none

/-- The identifier-start class of the unquoted-key pattern. -/
def identStartChar (c : Char) : Bool := c.isAlpha || c = '_' || c = '$'

/-- The identifier-continuation class of the unquoted-key pattern. -/
def identChar (c : Char) : Bool := c.isAlphanum || c = '_' || c = '$'

/-- Global replacement quoting unquoted object keys: an opening brace or
comma, whitespace, an identifier, whitespace, a colon, replaced by the
brace or comma, the whitespace, the quoted identifier and the colon (the
second whitespace run is matched but not kept). -/
def quoteKeysGo : Nat → List Char → List Char
  | _, [] => []
  | 0, cs => cs
  | fuel + 1, c :: rest =>
    if c = lbrace || c = ',' then
      match rest.dropWhile isJsWs with
      | i :: irest =>
        if identStartChar i then
          match (irest.dropWhile identChar).dropWhile isJsWs with
          | c2 :: r2 =>
            if c2 = ':' then
              c :: (rest.takeWhile isJsWs ++ '"' :: i :: irest.takeWhile identChar ++ ['"', ':']) ++
                quoteKeysGo fuel r2
            else c :: quoteKeysGo fuel rest
          | [] => c :: quoteKeysGo fuel rest
        else c :: quoteKeysGo fuel rest
      | [] => c :: quoteKeysGo fuel rest
    else c :: quoteKeysGo fuel rest

/-- Quote unquoted object keys. -/
def quoteKeys (cs : List Char) : List Char :=
  quoteKeysGo (cs.length + 1) cs

/-- Global replacement dropping a comma standing before whitespace and a
closing brace or bracket. -/
def dropTrailingCommasGo : Nat → List Char → List Char
  | _, [] => []
  | 0, cs => cs
  | fuel + 1, c :: rest =>
    if c = ',' then
      match rest.dropWhile isJsWs with
      | b :: r2 =>
        if b = rbrace || b = ']' then
          (rest.takeWhile isJsWs ++ [b]) ++ dropTrailingCommasGo fuel r2
        else c :: dropTrailingCommasGo fuel rest
      | [] => c :: dropTrailingCommasGo fuel rest
    else c :: dropTrailingCommasGo fuel rest

/-- Drop trailing commas. -/
def dropTrailingCommas (cs : List Char) : List Char :=
  dropTrailingCommasGo (cs.length + 1) cs

/-- The keep predicate of the line filter: empty after trimming, or starting
with a structural character, a comma or a word character, or ending with a
colon or comma. -/
def jsonLineKeep (line : List Char) : Bool :=
  let t := jsTrimL line
  t.isEmpty ||
  (match t.head? with
   | some c =>
     c = lbrace || c = rbrace || c = '"' || c = '[' || c = ']' || c = ',' || wordChar c
   | none => false) ||
  (match t.getLast? with
   | some c => c = ':' || c = ','
   | none => false)

/-- Split into lines, keep the lines accepted by the filter, join again. -/
def filterJsonLines (cs : List Char) : List Char :=
  List.intercalate ['\n'] ((splitOnChar '\n' cs).filter jsonLineKeep)

/-- The three textual repairs applied when the sliced candidate does not
parse: quote unquoted keys, drop trailing commas, filter out non-JSON
lines. -/
def repairJsonString (cs : List Char) : List Char :=
  filterJsonLines (dropTrailingCommas (quoteKeys cs))

/-! ## Fragment reconstruction (GeminiLLMService.reconstructJsonFromFragments) -/

/-- Match, at the head of the input, a quoted key, whitespace, a colon,
whitespace and an opening quote; return the input after the opening
quote. -/
def keyQuoteHere (key : List Char) (cs : List Char) : Option (List Char) :=
  if ('"' :: key ++ ['"']).isPrefixOf cs then
    match (cs.drop (key.length + 2)).dropWhile isJsWs with
    | c :: r1 =>
      if c = ':' then
        match r1.dropWhile isJsWs with
        | q :: r2 => if q = '"' then some r2 else none
        | [] => none
      else none
    | [] => none
  else none

/-- The capture of the quoted-value pattern at the head of the input:
the characters up to the first following quote, which must exist.  The
escape alternation of the source patterns never fires, because the greedy
character class stops at the first quote and the pattern then succeeds
immediately, so the capture always ends at the first quote. -/
def quotedCaptureHere (key : List Char) (cs : List Char) : Option (List Char) :=
  (keyQuoteHere key cs).bind fun r2 =>
    if (r2.dropWhile (fun c => c ≠ '"')).isEmpty then none
    else some (r2.takeWhile (fun c => c ≠ '"'))

/-- Leftmost match of the quoted-value pattern for a key, with a possibly
empty capture. -/
def stringCaptureScan (key : List Char) : Nat → List Char → Option (List Char)
  | _, [] => none
  | 0, _ => none
  | fuel + 1, c :: rest =>
    match quotedCaptureHere key (c :: rest) with
    | some cap => some cap
    | none => stringCaptureScan key fuel rest

/-- Leftmost match of the quoted-value pattern for a key whose capture
requires at least one character. -/
def stringCapture1Scan (key : List Char) : Nat → List Char → Option (List Char)
  | _, [] => none
  | 0, _ => none
  | fuel + 1, c :: rest =>
    match quotedCaptureHere key (c :: rest) with
    | some cap => if cap.isEmpty then stringCapture1Scan key fuel rest else some cap
    | none => stringCapture1Scan key fuel rest

/-- Match, at the head of the input, a quoted key, whitespace, a colon,
whitespace and one or more digits; return the digit run. -/
def digitsCaptureHere (key : List Char) (cs : List Char) : Option (List Char) :=
  if ('"' :: key ++ ['"']).isPrefixOf cs then
    match (cs.drop (key.length + 2)).dropWhile isJsWs with
    | c :: r1 =>
      if c = ':' then
        match r1.dropWhile isJsWs with
        | d :: r2 => if isDigitC d then some (d :: r2.takeWhile isDigitC) else none
        | [] => none
      else none
    | [] => none
  else none

/-- Leftmost match of the digit-value pattern for a key. -/
def digitsCaptureScan (key : List Char) : Nat → List Char → Option (List Char)
  | _, [] => none
  | 0, _ => none
  | fuel + 1, c :: rest =>
    match digitsCaptureHere key (c :: rest) with
    | some ds => some ds
    | none => digitsCaptureScan key fuel rest

/-- Match, at the head of the input, the quoted comments key, whitespace, a
colon, whitespace and an opening bracket; capture lazily up to the first
closing bracket, which must exist. -/
def commentsCaptureHere (cs : List Char) : Option (List Char) :=
  if ('"' :: "comments".data ++ ['"']).isPrefixOf cs then
    match (cs.drop 10).dropWhile isJsWs with
    | c :: r1 =>
      if c = ':' then
        match r1.dropWhile isJsWs with
        | b :: r2 =>
          if b = '[' then
            if (r2.dropWhile (fun x => x ≠ ']')).isEmpty then none
            else some (r2.takeWhile (fun x => x ≠ ']'))
          else none
        | [] => none
      else none
    | [] => none
  else none

/-- Leftmost match of the comments-array pattern. -/
def commentsCaptureScan : Nat → List Char → Option (List Char)
  | _, [] => none
  | 0, _ => none
  | fuel + 1, c :: rest =>
    match commentsCaptureHere (c :: rest) with
    | some cap => some cap
    | none => commentsCaptureScan fuel rest

/-- All non-overlapping matches of an opening brace, non-brace characters
and a closing brace, scanning left to right. -/
def braceFragmentsGo : Nat → List Char → List (List Char)
  | _, [] => []
  | 0, _ => []
  | fuel + 1, c :: rest =>
    if c = lbrace then
      match rest.dropWhile (fun x => x ≠ rbrace) with
      | b :: r2 => (c :: rest.takeWhile (fun x => x ≠ rbrace) ++ [b]) :: braceFragmentsGo fuel r2
      | [] => []
    else braceFragmentsGo fuel rest

/-- All brace-delimited fragments of the captured comments text. -/
def braceFragments (cs : List Char) : List (List Char) :=
  braceFragmentsGo (cs.length + 1) cs

/-- Value of a digit run, the semantics of parseInt with base ten. -/
def digitsToNat (ds : List Char) : Nat :=
  ds.foldl (fun acc c => acc * 10 + (c.toNat - 48)) 0

/-- The placeholder fragment used when no valid comment fragments are
recovered. -/
def placeholderFrag : FragComment :=
  { filePath := "unknown".data
    line := 1
    code := "Manual review recommended due to incomplete AI response".data
    severity := "medium".data }

/-- Extract one comment fragment from a brace-delimited piece: filePath and
line are required, code and severity fall back to defaults. -/
def parseFrag (commentStr : List Char) : Option FragComment :=
  match stringCapture1Scan "filePath".data (commentStr.length + 1) commentStr,
        digitsCaptureScan "line".data (commentStr.length + 1) commentStr with
  | some fp, some ds =>
    some { filePath := fp
           line := digitsToNat ds
           code := (stringCaptureScan "code".data (commentStr.length + 1) commentStr).getD
             "Review this code section for potential improvements".data
           severity := (stringCapture1Scan "severity".data (commentStr.length + 1) commentStr).getD
             "medium".data }
  | _, _ => none

/-- Model of GeminiLLMService.reconstructJsonFromFragments.  The catch
branch of the source (returning null) is unreachable in the embedding, so
the result is always a printed document. -/
def GeminiLLMService.reconstructJsonFromFragments (response : String) : Option String :=
  let rs := response.data
  let summary := (stringCaptureScan "summary".data (rs.length + 1) rs).getD
    "Code review completed with automated analysis".data
  match commentsCaptureScan (rs.length + 1) rs with
  | none => some (String.mk (stringifyDocL { summary := summary, comments := [placeholderFrag] }))
  | some commentsText =>
    let validComments := (braceFragments commentsText).filterMap parseFrag
    let validComments := if validComments.isEmpty then [placeholderFrag] else validComments
    some (String.mk (stringifyDocL { summary := summary, comments := validComments }))

/-- Model of GeminiLLMService.extractValidJson (schema-validation.ts): strip
markdown, collapse repeated tokens, slice between the first opening and the
last closing brace, parse; on failure repair and parse again; on failure
reconstruct from fragments.  The backslash-n substitution of the source
maps its pattern to itself and is the identity. -/
def GeminiLLMService.extractValidJson (response : String) : Option String :=
  match extractBraceSlice (cleanupResponse response.data) with
  | none => none
  | some slice =>
    let jsonString := jsTrimL slice
    if jsonValidL jsonString then some (String.mk jsonString)
    else
      let repaired := repairJsonString jsonString
      if jsonValidL repaired then some (String.mk repaired)
      else GeminiLLMService.reconstructJsonFromFragments response

/-- Model of EnhancedAIReviewService.extractValidJson
(enhanced-ai-review.ts): the same pipeline, but the repaired string is
returned without a final parse check and without fragment
reconstruction. -/
def EnhancedAIReviewService.extractValidJson (response : String) : Option String :=
  match extractBraceSlice (cleanupResponse response.data) with
  | none => none
  | some slice =>
    let jsonString := jsTrimL slice
    if jsonValidL jsonString then some (String.mk jsonString)
    else some (String.mk (repairJsonString jsonString))

/-! ## The enhanced-review retry loop (GeminiLLMService.generateEnhancedReview) -/

/-- A comment of the zod-validated model response after the schema
transform: the code field has been renamed to suggestion and the severity is
on the low, medium, high scale. -/
structure AIComment where
  filePath : String
  line : Int
  suggestion : String
  severity : String
deriving Repr, DecidableEq

/-- The zod-validated model response after the schema transform. -/
structure AIReviewParsed where
  summary : String
  comments : List AIComment
deriving Repr, DecidableEq

/-- Model of GeminiLLMService.generateFallbackMessage. -/
def GeminiLLMService.generateFallbackMessage (filePath severity : String) : String :=
  let fileName0 := lastOfSplit '/' filePath
  let fileName := if fileName0 = "" then "file" else fileName0
  if severity = "critical" then
    "Critical issue detected in " ++ fileName ++
      ". Manual review required for security, performance, or correctness concerns."
  else if severity = "major" then
    "Major improvement opportunity identified in " ++ fileName ++
      ". Consider refactoring for better maintainability or performance."
  else if severity = "minor" then
    "Minor code quality improvement suggested for " ++ fileName ++
      ". Consider following coding best practices."
  else
    "Code review suggestion for " ++ fileName ++ ". Manual inspection recommended."

/-- Model of GeminiLLMService.validateAndRepairComment.  After the schema
transform the code field is absent, so the disjunctions over suggestion and
code reduce to the suggestion field. -/
def GeminiLLMService.validateAndRepairComment (comment : AIComment) : ReviewComment :=
  let filePath := if comment.filePath = "" then "unknown" else comment.filePath
  let line := if 0 < comment.line then comment.line else 1
  let severity :=
    if comment.severity = "high" then "critical"
    else if comment.severity = "medium" then "major"
    else if comment.severity = "low" then "minor"
    else "minor"
  let message0 := comment.suggestion
  let message :=
    if message0 = "" || jsTrim message0 = "" then
      GeminiLLMService.generateFallbackMessage filePath severity
    else message0
  let suggestion := if comment.suggestion = "" then message else comment.suggestion
  { filePath := filePath
    line := line
    severity := severity
    message := jsTrim message
    rationale := "AI-generated code review suggestion based on automated analysis"
    suggestion := some (jsTrim suggestion) }

/-- The outcome of one attempt of the retry loop: a raw response that parses
and validates, a raw response that parses (directly or after extraction) but
fails schema validation, a raw response whose extracted candidate fails to
parse, a raw response with no extractable JSON, an API error with an HTTP
status, or any other thrown error. -/
inductive AttemptOutcome where
  | success (raw : String) (review : AIReviewParsed)
  | invalidSchema (raw : String)
  | extractParseFail (raw : String)
  | noJson (raw : String)
  | apiError (status : Nat)
  | otherError
deriving Repr, DecidableEq

/-- The retry constant MAX_RETRIES of both service classes. -/
def MAX_RETRIES : Nat := 8

/-- The retry constant RETRY_DELAY_MS. -/
def RETRY_DELAY_MS : Nat := 3000

/-- The retry constant MAX_RATE_LIMIT_RETRIES. -/
def MAX_RATE_LIMIT_RETRIES : Nat := 5

/-- The retry constant RATE_LIMIT_BACKOFF_MS. -/
def RATE_LIMIT_BACKOFF_MS : Nat := 8000

/-- The uncapped delay used after a JSON parse or extraction failure. -/
def parseFailureDelay (attempt : Nat) : Nat := RETRY_DELAY_MS * 2 ^ attempt

/-- The capped delay used after a schema-validation failure, a transient
server error or a general error. -/
def cappedRetryDelay (attempt : Nat) : Nat := RETRY_DELAY_MS * 2 ^ (min attempt 3)

/-- The rate-limit backoff delay, indexed by the shared attempt counter. -/
def rateLimitDelay (attempt : Nat) : Nat := RATE_LIMIT_BACKOFF_MS * 2 ^ attempt

/-- The mutable locals of the retry loop, plus the observation fields calls
(number of model invocations) and delays (the backoff waits in order). -/
structure LoopState where
  calls : Nat
  delays : List Nat
  retryCount : Nat
  rawResponse : String
  parsed : Option StructuredAIReview
  hasValidationErrors : Bool
  errorSet : Bool
  fallbackComments : List ReviewComment
deriving Repr

/-- The loop state before the first attempt. -/
def initLoopState : LoopState :=
  { calls := 0
    delays := []
    retryCount := 0
    rawResponse := ""
    parsed := none
    hasValidationErrors := false
    errorSet := false
    fallbackComments := [] }

/-- Model of the for loop of GeminiLLMService.generateEnhancedReview, from a
given attempt index with the remaining iteration budget as fuel (the loop
runs attempts 0 through MAX_RETRIES, so the top-level fuel is
MAX_RETRIES + 1 and fuel plus attempt stays constant). -/
def GeminiLLMService.runAttempts (env : Nat → AttemptOutcome) (ctx : PRContext) :
    Nat → Nat → LoopState → LoopState
  | 0, _, st => st
  | fuel + 1, attempt, st =>
    match env attempt with
    | AttemptOutcome.success raw review =>
      { st with
        calls := st.calls + 1
        retryCount := attempt
        rawResponse := raw
        parsed := some
          { summary :=
              if review.summary = "" then "Code review completed with automated analysis"
              else review.summary
            comments := review.comments.map GeminiLLMService.validateAndRepairComment }
        hasValidationErrors := false }
    | AttemptOutcome.invalidSchema raw =>
      let st1 := { st with
                   calls := st.calls + 1
                   retryCount := attempt
                   rawResponse := raw
                   hasValidationErrors := true }
      if attempt < MAX_RETRIES then
        GeminiLLMService.runAttempts env ctx fuel (attempt + 1)
          { st1 with delays := st1.delays ++ [cappedRetryDelay attempt] }
      else
        { st1 with fallbackComments := GeminiLLMService.generateFallbackComments raw ctx }
    | AttemptOutcome.extractParseFail raw =>
      let st1 := { st with
                   calls := st.calls + 1
                   retryCount := attempt
                   rawResponse := raw
                   hasValidationErrors := true }
      if attempt < MAX_RETRIES then
        GeminiLLMService.runAttempts env ctx fuel (attempt + 1)
          { st1 with delays := st1.delays ++ [parseFailureDelay attempt] }
      else st1
    | AttemptOutcome.noJson raw =>
      let st1 := { st with
                   calls := st.calls + 1
                   retryCount := attempt
                   rawResponse := raw
                   hasValidationErrors := true }
      if attempt < MAX_RETRIES then
        GeminiLLMService.runAttempts env ctx fuel (attempt + 1)
          { st1 with delays := st1.delays ++ [parseFailureDelay attempt] }
      else st1
    | AttemptOutcome.apiError status =>
      let st1 := { st with
                   calls := st.calls + 1
                   retryCount := attempt
                   errorSet := true }
      if status = 429 && attempt < MAX_RATE_LIMIT_RETRIES then
        GeminiLLMService.runAttempts env ctx fuel (attempt + 1)
          { st1 with delays := st1.delays ++ [rateLimitDelay attempt] }
      else if (status = 503 || status = 502 || status = 500) && attempt < MAX_RETRIES then
        GeminiLLMService.runAttempts env ctx fuel (attempt + 1)
          { st1 with delays := st1.delays ++ [cappedRetryDelay attempt] }
      else st1
    | AttemptOutcome.otherError =>
      let st1 := { st with
                   calls := st.calls + 1
                   retryCount := attempt
                   errorSet := true }
      if attempt < MAX_RETRIES then
        GeminiLLMService.runAttempts env ctx fuel (attempt + 1)
          { st1 with delays := st1.delays ++ [cappedRetryDelay attempt] }
      else st1

/-- The response envelope assembled after the loop, with the observation
fields of the loop state carried through. -/
structure ReviewEnvelope where
  calls : Nat
  delays : List Nat
  retryCount : Nat
  raw : String
  parsed : StructuredAIReview
  fallbackComments : List ReviewComment
  success : Bool
  schemaValidationPassed : Bool
  fallbackUsed : Bool
  finalCommentsCount : Nat
deriving Repr

/-- Model of GeminiLLMService.generateEnhancedReview: run the retry loop,
apply the final validation gate, and assemble the envelope (the response
parsed field is the gate output; the envelope fallback comments are the
gate output comments when the fallback was used). -/
def GeminiLLMService.generateEnhancedReview (env : Nat → AttemptOutcome)
    (ctx : PRContext) : ReviewEnvelope :=
  let lr := GeminiLLMService.runAttempts env ctx (MAX_RETRIES + 1) 0 initLoopState
  let fv := GeminiLLMService.performFinalValidation lr.parsed lr.fallbackComments
  { calls := lr.calls
    delays := lr.delays
    retryCount := lr.retryCount
    raw := lr.rawResponse
    parsed := fv.validatedResponse
    fallbackComments := if fv.fallbackUsed then fv.validatedResponse.comments else lr.fallbackComments
    success := !lr.errorSet && fv.isValid
    schemaValidationPassed := fv.isValid
    fallbackUsed := fv.fallbackUsed
    finalCommentsCount := fv.validatedResponse.comments.length }

/-- An attempt outcome that fails JSON parsing or schema validation. -/
def isParseOrValidationFailure : AttemptOutcome → Bool
  | AttemptOutcome.invalidSchema _ => true
  | AttemptOutcome.extractParseFail _ => true
  | AttemptOutcome.noJson _ => true
  | _ => false

/-- The outcome of one attempt of the enhanced-ai-review retry loop; its
success outcome carries the ajv-validated review unchanged (this variant
applies no comment repair to a valid review). -/
inductive AxiosAttemptOutcome where
  | success (raw : String) (review : StructuredAIReview)
  | invalidSchema (raw : String)
  | extractParseFail (raw : String)
  | noJson (raw : String)
  | apiError (status : Nat)
  | otherError
deriving Repr

/-- An attempt outcome of the enhanced-ai-review loop that fails JSON
parsing or extraction: the branches that never generate fallback
comments. -/
def isAxiosParseFailure : AxiosAttemptOutcome → Bool
  | AxiosAttemptOutcome.extractParseFail _ => true
  | AxiosAttemptOutcome.noJson _ => true
  | _ => false

/-- Model of the for loop of EnhancedAIReviewService.generateEnhancedReview
(enhanced-ai-review.ts).  It differs from the GeminiLLMService loop in
three ways: fallback comments are generated only when the final attempt
fails schema validation (the parse and extraction failure branches break
without generating any), a successful validation stores the review
unchanged, and a non-HTTP error breaks immediately without a retry. -/
def EnhancedAIReviewService.runAttempts (env : Nat → AxiosAttemptOutcome)
    (ctx : PRContext) : Nat → Nat → LoopState → LoopState
  | 0, _, st => st
  | fuel + 1, attempt, st =>
    match env attempt with
    | AxiosAttemptOutcome.success raw review =>
      { st with
        calls := st.calls + 1
        retryCount := attempt
        rawResponse := raw
        parsed := some review
        hasValidationErrors := false }
    | AxiosAttemptOutcome.invalidSchema raw =>
      let st1 := { st with
                   calls := st.calls + 1
                   retryCount := attempt
                   rawResponse := raw
                   hasValidationErrors := true }
      if attempt < MAX_RETRIES then
        EnhancedAIReviewService.runAttempts env ctx fuel (attempt + 1)
          { st1 with delays := st1.delays ++ [cappedRetryDelay attempt] }
      else
        { st1 with fallbackComments :=
            EnhancedAIReviewService.generateFallbackComments raw ctx }
    | AxiosAttemptOutcome.extractParseFail raw =>
      let st1 := { st with
                   calls := st.calls + 1
                   retryCount := attempt
                   rawResponse := raw
                   hasValidationErrors := true }
      if attempt < MAX_RETRIES then
        EnhancedAIReviewService.runAttempts env ctx fuel (attempt + 1)
          { st1 with delays := st1.delays ++ [parseFailureDelay attempt] }
      else st1
    | AxiosAttemptOutcome.noJson raw =>
      let st1 := { st with
                   calls := st.calls + 1
                   retryCount := attempt
                   rawResponse := raw
                   hasValidationErrors := true }
      if attempt < MAX_RETRIES then
        EnhancedAIReviewService.runAttempts env ctx fuel (attempt + 1)
          { st1 with delays := st1.delays ++ [parseFailureDelay attempt] }
      else st1
    | AxiosAttemptOutcome.apiError status =>
      let st1 := { st with
                   calls := st.calls + 1
                   retryCount := attempt
                   errorSet := true }
      if status = 429 && attempt < MAX_RATE_LIMIT_RETRIES then
        EnhancedAIReviewService.runAttempts env ctx fuel (attempt + 1)
          { st1 with delays := st1.delays ++ [rateLimitDelay attempt] }
      else if (status = 503 || status = 502 || status = 500) && attempt < MAX_RETRIES then
        EnhancedAIReviewService.runAttempts env ctx fuel (attempt + 1)
          { st1 with delays := st1.delays ++ [cappedRetryDelay attempt] }
      else st1
    | AxiosAttemptOutcome.otherError =>
      { st with
        calls := st.calls + 1
        retryCount := attempt
        errorSet := true }

/-- The envelope of EnhancedAIReviewService.generateEnhancedReview: there is
no final-validation gate, the fallbackComments field is the loop variable
exactly as the loop left it, and success requires a parsed response with no
error and no validation errors. -/
structure AxiosReviewEnvelope where
  calls : Nat
  delays : List Nat
  retryCount : Nat
  raw : String
  parsed : Option StructuredAIReview
  fallbackComments : List ReviewComment
  success : Bool
deriving Repr

/-- Model of EnhancedAIReviewService.generateEnhancedReview: run the retry
loop and assemble the envelope directly from the loop state. -/
def EnhancedAIReviewService.generateEnhancedReview (env : Nat → AxiosAttemptOutcome)
    (ctx : PRContext) : AxiosReviewEnvelope :=
  let lr := EnhancedAIReviewService.runAttempts env ctx (MAX_RETRIES + 1) 0 initLoopState
  { calls := lr.calls
    delays := lr.delays
    retryCount := lr.retryCount
    raw := lr.rawResponse
    parsed := lr.parsed
    fallbackComments := lr.fallbackComments
    success := !lr.errorSet && !lr.hasValidationErrors && lr.parsed.isSome }

/-! ## Repository comment filter (RepoConfigService) -/

/-- The effective thresholds consumed by the comment filter. -/
structure FilterThresholds where
  ignoreMinorThreshold : Rat
  ignoreMajorThreshold : Rat
  maxCommentsPerReview : Nat
  enabledSeverities : List String
deriving Repr

/-- The stored repository configuration fields read by
getEffectiveThresholds. -/
structure RepoConfigData where
  enabledSeverities : List String
  adaptiveThresholds : Bool
  manualIgnoreMinorThreshold : Rat
  manualIgnoreMajorThreshold : Rat
  manualMaxCommentsPerReview : Nat
deriving Repr

/-- The default thresholds returned by the catch branch of
getEffectiveThresholds. -/
def defaultThresholds : FilterThresholds :=
  { ignoreMinorThreshold := 7 / 10
    ignoreMajorThreshold := 3 / 10
    maxCommentsPerReview := 20
    enabledSeverities := ["critical", "major", "minor"] }

/-- Model of RepoConfigService.getEffectiveThresholds.  The configuration
lookup and the adaptive-threshold computation are injected as Option values;
none models a thrown error, which the catch branch of the source turns into
the full default record. -/
def RepoConfigService.getEffectiveThresholds
    (configResult : Option RepoConfigData)
    (adaptiveResult : Option (Rat × Rat)) : FilterThresholds :=
  match configResult with
  | none => defaultThresholds
  | some config =>
    let base : FilterThresholds :=
      { ignoreMinorThreshold := config.manualIgnoreMinorThreshold
        ignoreMajorThreshold := config.manualIgnoreMajorThreshold
        maxCommentsPerReview := config.manualMaxCommentsPerReview
        enabledSeverities := config.enabledSeverities }
    if config.adaptiveThresholds then
      match adaptiveResult with
      | some mima => { base with ignoreMinorThreshold := mima.1, ignoreMajorThreshold := mima.2 }
      | none => defaultThresholds
    else base

/-- The probabilistic drop step of filterComments: one random draw per minor
or major comment, kept when the draw exceeds the matching threshold;
critical comments and any other severities are kept without a draw.  The
parameter rand injects the Math.random() sequence, indexed by draw count. -/
def probDrop (thr : FilterThresholds) (rand : Nat → Rat) :
    Nat → List ReviewComment → List ReviewComment
  | _, [] => []
  | k, c :: cs =>
    if c.severity = "minor" then
      if thr.ignoreMinorThreshold < rand k then c :: probDrop thr rand (k + 1) cs
      else probDrop thr rand (k + 1) cs
    else if c.severity = "major" then
      if thr.ignoreMajorThreshold < rand k then c :: probDrop thr rand (k + 1) cs
      else probDrop thr rand (k + 1) cs
    else c :: probDrop thr rand k cs

/-- The severity rank of the truncation comparator (critical 3, major 2,
minor 1).  A severity outside the enumeration would make the source
comparator return NaN; rank 0 stands in for that unreachable case. -/
def severityRank (s : String) : Nat :=
  if s = "critical" then 3
  else if s = "major" then 2
  else if s = "minor" then 1
  else 0

/-- Stable insertion into a rank-descending sorted list: the element being
inserted precedes existing elements of equal rank, matching the stability
of the JavaScript sort for elements inserted from the right fold. -/
def insertByRankDesc (c : ReviewComment) : List ReviewComment → List ReviewComment
  | [] => [c]
  | d :: ds =>
    if severityRank c.severity < severityRank d.severity then d :: insertByRankDesc c ds
    else c :: d :: ds

/-- Stable sort descending by severity rank, the semantics of the in-place
JavaScript sort with the severity-order comparator. -/
def sortByRankDesc : List ReviewComment → List ReviewComment
  | [] => []
  | c :: cs => insertByRankDesc c (sortByRankDesc cs)

/-- Model of RepoConfigService.filterComments.  A failed configuration
lookup (the second awaited call, whose thrown error reaches the catch
branch) returns the input unchanged; otherwise disabled severities are
dropped, the probabilistic drop runs, and when the survivors exceed the
limit they are sorted by rank descending and truncated. -/
def RepoConfigService.filterComments (comments : List ReviewComment)
    (thresholds : FilterThresholds) (configLookupOk : Bool)
    (rand : Nat → Rat) : List ReviewComment :=
  if !configLookupOk then comments
  else
    let filtered := comments.filter (fun c => thresholds.enabledSeverities.contains c.severity)
    let finalComments := probDrop thresholds rand 0 filtered
    if thresholds.maxCommentsPerReview < finalComments.length then
      (sortByRankDesc finalComments).take thresholds.maxCommentsPerReview
    else finalComments

/-! ## Concrete fixtures used by witnesses and counterexamples -/

/-- A one-file pull-request context. -/
def sampleCtx : PRContext :=
  { repo := "octo/demo"
    prNumber := 1
    changedFiles := [{ path := "a.ts", patch := "p", additions := 1, deletions := 1 }] }

/-- A comment passing every database-readiness check. -/
def sampleGoodComment : ReviewComment :=
  { filePath := "a.ts"
    line := 5
    severity := "minor"
    message := "use const"
    rationale := "immutability helps"
    suggestion := none }

/-- A comment with an empty message, failing the per-comment check. -/
def sampleBadComment : ReviewComment :=
  { filePath := "b.ts"
    line := 1
    severity := "minor"
    message := ""
    rationale := "some rationale"
    suggestion := none }

/-- A thresholds fixture with a limit of one and only critical enabled. -/
def sampleThr : FilterThresholds :=
  { ignoreMinorThreshold := 0
    ignoreMajorThreshold := 0
    maxCommentsPerReview := 1
    enabledSeverities := ["critical"] }

/-- A two-element critical comment list fixture. -/
def twoCriticals : List ReviewComment :=
  [{ sampleGoodComment with severity := "critical" },
   { sampleBadComment with severity := "critical" }]

/-- The tail of a printed comment array: a comma before each further
element. -/
def joinTailL : List FragComment → List Char
  | [] => []
  | f :: fs => ',' :: (printFragL f ++ joinTailL fs)

/-! ## Helper lemmas: comment filter -/

/-- The probabilistic drop never lengthens the list. -/
theorem probDrop_length_le (thr : FilterThresholds) (rand : Nat → Rat) :
    ∀ k l, (probDrop thr rand k l).length ≤ l.length := by
  intro k l
  induction l generalizing k with
  | nil => simp [probDrop]
  | cons c cs ih =>
    simp only [probDrop]
    split_ifs <;> simp only [List.length_cons] <;>
      first
        | exact Nat.succ_le_succ (ih _)
        | exact Nat.le_succ_of_le (ih _)

/-- The probabilistic drop preserves a predicate holding on every element. -/
theorem probDrop_all (thr : FilterThresholds) (rand : Nat → Rat) (p : ReviewComment → Bool) :
    ∀ k l, l.all p = true → (probDrop thr rand k l).all p = true := by
  intro k l
  induction l generalizing k with
  | nil => simp [probDrop]
  | cons c cs ih =>
    intro h
    simp only [List.all_cons, Bool.and_eq_true] at h
    simp only [probDrop]
    split_ifs <;> simp [List.all_cons, h.1, ih _ h.2]

/-- The probabilistic drop keeps exactly the critical comments of its input:
a critical comment is never dropped, and order is preserved. -/
theorem probDrop_filter_critical (thr : FilterThresholds) (rand : Nat → Rat) :
    ∀ k l, (probDrop thr rand k l).filter (fun c => c.severity = "critical") =
      l.filter (fun c => c.severity = "critical") := by
  intro k l
  induction l generalizing k with
  | nil => simp [probDrop]
  | cons c cs ih =>
    simp only [probDrop]
    by_cases hmin : c.severity = "minor"
    · have hnc : (decide (c.severity = "critical")) = false := by
        simp [hmin]
      simp only [if_pos hmin]
      split_ifs with hk
      · simp [List.filter_cons, hnc, ih]
      · simp [List.filter_cons, hnc, ih]
    · by_cases hmaj : c.severity = "major"
      · have hnc : (decide (c.severity = "critical")) = false := by
          simp [hmaj]
        simp only [if_neg hmin, if_pos hmaj]
        split_ifs with hk
        · simp [List.filter_cons, hnc, ih]
        · simp [List.filter_cons, hnc, ih]
      · simp only [if_neg hmin, if_neg hmaj]
        by_cases hc : c.severity = "critical"
        · simp [List.filter_cons, hc, ih]
        · simp [List.filter_cons, hc, ih]

/-- Stable insertion is a permutation of consing. -/
theorem insertByRankDesc_perm (c : ReviewComment) (l : List ReviewComment) :
    List.Perm (insertByRankDesc c l) (c :: l) := by
  induction l with
  | nil => simp [insertByRankDesc]
  | cons d ds ih =>
    simp only [insertByRankDesc]
    split_ifs
    · exact ((ih.cons d).trans (List.Perm.swap c d ds))
    · exact List.Perm.refl _

/-- The stable sort is a permutation of its input. -/
theorem sortByRankDesc_perm (l : List ReviewComment) :
    List.Perm (sortByRankDesc l) l := by
  induction l with
  | nil => exact List.Perm.refl _
  | cons c cs ih =>
    exact (insertByRankDesc_perm c (sortByRankDesc cs)).trans (ih.cons c)

/-- Decomposition of stable insertion: the skipped prefix consists of the
strictly higher-ranked elements before the insertion point. -/
theorem insertByRankDesc_eq_append (c : ReviewComment) (l : List ReviewComment) :
    ∃ l₁ l₂, l = l₁ ++ l₂ ∧ insertByRankDesc c l = l₁ ++ c :: l₂ ∧
      ∀ d ∈ l₁, severityRank c.severity < severityRank d.severity := by
  induction l with
  | nil => exact ⟨[], [], rfl, rfl, by simp⟩
  | cons d ds ih =>
    by_cases h : severityRank c.severity < severityRank d.severity
    · obtain ⟨l₁, l₂, he, hi, hh⟩ := ih
      refine ⟨d :: l₁, l₂, by simp [he], ?_, ?_⟩
      · simp [insertByRankDesc, if_pos h, hi]
      · intro x hx
        rcases List.mem_cons.mp hx with hx | hx
        · exact hx ▸ h
        · exact hh x hx
    · exact ⟨[], d :: ds, rfl, by simp [insertByRankDesc, if_neg h], by simp⟩

/-- Stable insertion preserves descending rank sortedness. -/
theorem insertByRankDesc_pairwise (c : ReviewComment) (l : List ReviewComment)
    (h : List.Pairwise (fun a b => severityRank b.severity ≤ severityRank a.severity) l) :
    List.Pairwise (fun a b => severityRank b.severity ≤ severityRank a.severity)
      (insertByRankDesc c l) := by
  induction l with
  | nil => simp [insertByRankDesc]
  | cons d ds ih =>
    rcases List.pairwise_cons.mp h with ⟨hd, hds⟩
    by_cases hlt : severityRank c.severity < severityRank d.severity
    · simp only [insertByRankDesc, if_pos hlt]
      refine List.pairwise_cons.mpr ⟨?_, ih hds⟩
      intro x hx
      have hx' := (insertByRankDesc_perm c ds).mem_iff.mp hx
      rcases List.mem_cons.mp hx' with hx' | hx'
      · exact hx' ▸ Nat.le_of_lt hlt
      · exact hd x hx'
    · simp only [insertByRankDesc, if_neg hlt]
      refine List.pairwise_cons.mpr ⟨?_, h⟩
      intro x hx
      rcases List.mem_cons.mp hx with hx | hx
      · exact hx ▸ Nat.le_of_not_lt hlt
      · exact Nat.le_trans (hd x hx) (Nat.le_of_not_lt hlt)

/-- The stable sort is sorted descending by rank. -/
theorem sortByRankDesc_pairwise (l : List ReviewComment) :
    List.Pairwise (fun a b => severityRank b.severity ≤ severityRank a.severity)
      (sortByRankDesc l) := by
  induction l with
  | nil => simp [sortByRankDesc]
  | cons c cs ih => exact insertByRankDesc_pairwise c _ ih

/-- Stability of the sort, expressed per rank class: the elements of any
fixed rank appear in the output in their original relative order. -/
theorem sortByRankDesc_filter_rank (rk : Nat) :
    ∀ l : List ReviewComment,
      (sortByRankDesc l).filter (fun c => severityRank c.severity = rk) =
        l.filter (fun c => severityRank c.severity = rk) := by
  intro l
  induction l with
  | nil => simp [sortByRankDesc]
  | cons c cs ih =>
    simp only [sortByRankDesc]
    obtain ⟨l₁, l₂, he, hi, hh⟩ := insertByRankDesc_eq_append c (sortByRankDesc cs)
    have hcs : cs.filter (fun c => severityRank c.severity = rk) =
        l₁.filter (fun c => severityRank c.severity = rk) ++
          l₂.filter (fun c => severityRank c.severity = rk) := by
      rw [← List.filter_append, ← he, ih]
    rw [hi, List.filter_append, List.filter_cons, List.filter_cons]
    by_cases hc : severityRank c.severity = rk
    · have h1 : l₁.filter (fun c => severityRank c.severity = rk) = [] := by
        rw [List.filter_eq_nil_iff]
        intro d hd
        have := hh d hd
        simp only [decide_eq_true_eq]
        omega
      simp only [hc, decide_True, if_true, eq_self_iff_true]
      rw [h1, hcs, h1]
      simp
    · have hcd : (decide (severityRank c.severity = rk)) = false := by
        simp [hc]
      simp only [hcd, Bool.false_eq_true, if_false]
      rw [hcs]

/-- C6: with a successful configuration lookup, filterComments returns at
most min(input length, maxCommentsPerReview) comments and only enabled
severities. -/
theorem C6_filter_bounds (comments : List ReviewComment) (thr : FilterThresholds)
    (rand : Nat → Rat) :
    (RepoConfigService.filterComments comments thr true rand).length ≤
      min comments.length thr.maxCommentsPerReview ∧
    (RepoConfigService.filterComments comments thr true rand).all
      (fun c => thr.enabledSeverities.contains c.severity) = true := by
  unfold RepoConfigService.filterComments
  simp only [Bool.not_true, Bool.false_eq_true, if_false]
  have hlen1 : (probDrop thr rand 0
      (comments.filter (fun c => thr.enabledSeverities.contains c.severity))).length ≤
      (comments.filter (fun c => thr.enabledSeverities.contains c.severity)).length :=
    probDrop_length_le thr rand 0 _
  have hlen2 : (comments.filter (fun c => thr.enabledSeverities.contains c.severity)).length ≤
      comments.length := List.length_filter_le _ _
  have hall : (probDrop thr rand 0
      (comments.filter (fun c => thr.enabledSeverities.contains c.severity))).all
      (fun c => thr.enabledSeverities.contains c.severity) = true := by
    refine probDrop_all thr rand _ 0 _ ?_
    simp only [List.all_eq_true, decide_eq_true_eq]
    intro c hc
    exact (List.mem_filter.mp hc).2
  split_ifs with hgt
  · constructor
    · rw [List.length_take]
      have := (sortByRankDesc_perm (probDrop thr rand 0
        (comments.filter (fun c => thr.enabledSeverities.contains c.severity)))).length_eq
      omega
    · simp only [List.all_eq_true]
      intro c hc
      have hc1 : c ∈ sortByRankDesc (probDrop thr rand 0
          (comments.filter (fun c => thr.enabledSeverities.contains c.severity))) :=
        List.mem_of_mem_take hc
      have hc2 := (sortByRankDesc_perm _).mem_iff.mp hc1
      exact (List.all_eq_true.mp hall) c hc2
  · constructor
    · omega
    · exact hall

/-- C7: critical comments always survive the probabilistic drop with their
order preserved, and when the survivors exceed the limit the output is
exactly the survivors stably sorted descending by rank and truncated. -/
theorem C7_rank_truncation (comments : List ReviewComment) (thr : FilterThresholds)
    (rand : Nat → Rat)
    (hgt : thr.maxCommentsPerReview <
      (probDrop thr rand 0
        (comments.filter (fun c => thr.enabledSeverities.contains c.severity))).length) :
    (∀ k (l : List ReviewComment),
      (probDrop thr rand k l).filter (fun c => c.severity = "critical") =
        l.filter (fun c => c.severity = "critical")) ∧
    RepoConfigService.filterComments comments thr true rand =
      (sortByRankDesc (probDrop thr rand 0
        (comments.filter (fun c => thr.enabledSeverities.contains c.severity)))).take
        thr.maxCommentsPerReview ∧
    List.Perm
      (sortByRankDesc (probDrop thr rand 0
        (comments.filter (fun c => thr.enabledSeverities.contains c.severity))))
      (probDrop thr rand 0
        (comments.filter (fun c => thr.enabledSeverities.contains c.severity))) ∧
    List.Pairwise (fun a b => severityRank b.severity ≤ severityRank a.severity)
      (sortByRankDesc (probDrop thr rand 0
        (comments.filter (fun c => thr.enabledSeverities.contains c.severity)))) ∧
    ∀ rk, (sortByRankDesc (probDrop thr rand 0
        (comments.filter (fun c => thr.enabledSeverities.contains c.severity)))).filter
          (fun c => severityRank c.severity = rk) =
      (probDrop thr rand 0
        (comments.filter (fun c => thr.enabledSeverities.contains c.severity))).filter
          (fun c => severityRank c.severity = rk) := by
  refine ⟨fun k l => probDrop_filter_critical thr rand k l, ?_, sortByRankDesc_perm _,
    sortByRankDesc_pairwise _, fun rk => sortByRankDesc_filter_rank rk _⟩
  unfold RepoConfigService.filterComments
  simp only [Bool.not_true, Bool.false_eq_true, if_false]
  rw [if_pos hgt]

/-- C7 witness: a concrete run with two critical comments against a limit
of one, where the hypothesis of the theorem holds. -/
theorem C7_rank_truncation_witness :
    sampleThr.maxCommentsPerReview <
      (probDrop sampleThr (fun _ => (1 : Rat)) 0
        (twoCriticals.filter (fun c => sampleThr.enabledSeverities.contains c.severity))).length ∧
    (RepoConfigService.filterComments twoCriticals sampleThr true (fun _ => (1 : Rat))).length = 1 := by
  refine ⟨by decide, ?_⟩
  have h := C7_rank_truncation twoCriticals sampleThr (fun _ => (1 : Rat)) (by decide)
  rw [h.2.1]
  decide

/-- C10: when the configuration lookup inside filterComments throws, the
catch branch returns the input list unchanged, bypassing severity filter,
probabilistic drop and truncation. -/
theorem C10_filter_error_path (comments : List ReviewComment) (thr : FilterThresholds)
    (rand : Nat → Rat) :
    RepoConfigService.filterComments comments thr false rand = comments := rfl

/-- C8: the classifier checks the full critical keyword table first (which
includes error, runtime-error and security-issue), then the full major
table, defaulting to minor; matching is by substring containment on the
lower-cased concatenation. -/
theorem C8_classifier_tiers (m r : String) :
    classifySeverity m r =
      (if ["security", "vulnerability", "security-issue", "bug", "error", "runtime-error",
           "null-pointer", "infinite-loop", "crash", "deadlock"].any
          (fun kw => strIncludes (jsLower (m ++ " " ++ r)) kw) then "critical"
       else if ["performance", "memory-leak", "optimization", "complexity", "maintainability",
           "code-smell", "technical-debt", "scalability", "reliability", "error-handling"].any
          (fun kw => strIncludes (jsLower (m ++ " " ++ r)) kw) then "major"
       else "minor") := by
  rfl

/-- C8 counterexample: a message containing the keyword error-handling is
classified critical by the code (the critical table contains error), while
the tiers stated by the claim yield major. -/
theorem C8_error_handling_divergence :
    classifySeverity "error-handling issue" "the function needs work" = "critical" ∧
    classifySeverityClaim "error-handling issue" "the function needs work" = "major" ∧
    classifySeverity "error-handling issue" "the function needs work" ≠
      classifySeverityClaim "error-handling issue" "the function needs work" := by
  refine ⟨by decide, by decide, by decide⟩

/-- Indexed mapping preserves length. -/
theorem mapWithIndexGo_length {α β : Type} (f : α → Nat → β) :
    ∀ (l : List α) (i : Nat), (mapWithIndexGo f l i).length = l.length := by
  intro l
  induction l with
  | nil => intro i; rfl
  | cons x xs ih => intro i; simp [mapWithIndexGo, ih]

/-- Deduplication never lengthens the list. -/
theorem dedupFirstGo_length_le :
    ∀ (l seen : List String), (dedupFirstGo l seen).length ≤ l.length := by
  intro l
  induction l with
  | nil => intro seen; simp [dedupFirstGo]
  | cons x xs ih =>
    intro seen
    simp only [dedupFirstGo]
    split_ifs
    · exact Nat.le_succ_of_le (ih _)
    · simpa using Nat.succ_le_succ (ih _)

/-- C9: the Gemini fallback generator returns one comment per distinct
changed-file path, between one and the number of changed files for a
non-empty list, and exactly one comment with the unknown file path for an
empty list. -/
theorem C9_fallback_counts (raw : String) (ctx : PRContext) :
    if ctx.changedFiles.isEmpty then
      (GeminiLLMService.generateFallbackComments raw ctx).length = 1 ∧
      ((GeminiLLMService.generateFallbackComments raw ctx).head?.map ReviewComment.filePath) =
        some "unknown"
    else
      1 ≤ (GeminiLLMService.generateFallbackComments raw ctx).length ∧
      (GeminiLLMService.generateFallbackComments raw ctx).length ≤ ctx.changedFiles.length ∧
      (GeminiLLMService.generateFallbackComments raw ctx).length =
        (dedupFirst (ctx.changedFiles.map ChangedFile.path)).length := by
  obtain ⟨repo, pr, files⟩ := ctx
  cases files with
  | nil => simp [GeminiLLMService.generateFallbackComments, dedupFirst, dedupFirstGo, mapWithIndexGo]
  | cons f fs =>
    simp only [List.isEmpty_cons, if_false, Bool.false_eq_true]
    have hne : dedupFirst ((f :: fs).map ChangedFile.path) =
        f.path :: dedupFirstGo (fs.map ChangedFile.path) [f.path] := by
      simp [dedupFirst, dedupFirstGo, List.map_cons]
    have hlen : (GeminiLLMService.generateFallbackComments raw ⟨repo, pr, f :: fs⟩).length =
        (dedupFirst ((f :: fs).map ChangedFile.path)).length := by
      unfold GeminiLLMService.generateFallbackComments
      rw [hne]
      simp [mapWithIndexGo, mapWithIndexGo_length]
    refine ⟨?_, ?_, hlen⟩
    · rw [hlen, hne]
      simp
    · rw [hlen]
      calc (dedupFirst ((f :: fs).map ChangedFile.path)).length
          ≤ ((f :: fs).map ChangedFile.path).length := dedupFirstGo_length_le _ _
        _ = (f :: fs).length := by simp

/-! ## Helper lemmas: trimming and the final validation gate -/

/-- Dropping a whitespace prefix twice equals dropping it once. -/
theorem dropWhile_ws_idem :
    ∀ l : List Char, (l.dropWhile isJsWs).dropWhile isJsWs = l.dropWhile isJsWs := by
  intro l
  induction l with
  | nil => rfl
  | cons c cs ih =>
    by_cases h : isJsWs c = true
    · simp [List.dropWhile_cons, h, ih]
    · simp [List.dropWhile_cons, h]

/-- The head surviving a whitespace drop is not whitespace. -/
theorem dropWhile_ws_head :
    ∀ (l : List Char) (c : Char), (l.dropWhile isJsWs).head? = some c → isJsWs c = false := by
  intro l
  induction l with
  | nil => intro c h; simp at h
  | cons d ds ih =>
    intro c h
    by_cases hd : isJsWs d = true
    · rw [List.dropWhile_cons, if_pos hd] at h
      exact ih c h
    · rw [List.dropWhile_cons, if_neg hd] at h
      simp only [List.head?_cons, Option.some.injEq] at h
      rw [← h]
      simpa using hd

/-- Dropping whitespace from a list whose head is not whitespace is the
identity. -/
theorem dropWhile_ws_noop (m : List Char)
    (hm : ∀ c, m.head? = some c → isJsWs c = false) :
    m.dropWhile isJsWs = m := by
  cases m with
  | nil => rfl
  | cons c cs =>
    have := hm c rfl
    simp [List.dropWhile_cons, this]

/-- The JavaScript trim is idempotent on character lists. -/
theorem jsTrimL_idem (l : List Char) : jsTrimL (jsTrimL l) = jsTrimL l := by
  unfold jsTrimL
  have hstep : ((((l.dropWhile isJsWs).reverse.dropWhile isJsWs).reverse).dropWhile isJsWs) =
      ((l.dropWhile isJsWs).reverse.dropWhile isJsWs).reverse := by
    apply dropWhile_ws_noop
    intro c hc
    rw [List.head?_reverse] at hc
    rcases hb : ((l.dropWhile isJsWs).reverse.dropWhile isJsWs) with _ | ⟨d, ds⟩
    · rw [hb] at hc; simp at hc
    · have hsplit := List.takeWhile_append_dropWhile (p := isJsWs)
        (l := (l.dropWhile isJsWs).reverse)
      have hlast : ((l.dropWhile isJsWs).reverse.dropWhile isJsWs).getLast? =
          (l.dropWhile isJsWs).reverse.getLast? := by
        conv_rhs => rw [← hsplit]
        rw [List.getLast?_append_of_ne_nil]
        rw [hb]
        simp
      rw [hb] at hlast
      rw [hb] at hc
      rw [hlast] at hc
      rw [List.getLast?_reverse] at hc
      exact dropWhile_ws_head _ _ hc
  rw [hstep, List.reverse_reverse, dropWhile_ws_idem]

/-- The JavaScript trim is idempotent. -/
theorem jsTrim_idem (s : String) : jsTrim (jsTrim s) = jsTrim s := by
  unfold jsTrim
  exact congrArg String.mk (jsTrimL_idem s.data)

/-- Unfolding of the per-comment database-readiness check. -/
theorem commentCheckOk_iff (c : ReviewComment) :
    commentCheckOk c = true ↔
      c.filePath ≠ "" ∧ ¬(c.message = "" ∨ jsTrim c.message = "") ∧
      ¬(c.rationale = "" ∨ jsTrim c.rationale = "") ∧
      (["critical", "major", "minor"].contains c.severity) = true ∧ ¬(c.line < 1) := by
  unfold commentCheckOk commentCheckErrors
  split_ifs with h1 h2 h3 h4 h5 <;> simp_all

/-- Normalisation keeps a valid comment valid (trim is idempotent). -/
theorem commentCheckOk_normalize (c : ReviewComment) (h : commentCheckOk c = true) :
    commentCheckOk (normalizeComment c) = true := by
  rw [commentCheckOk_iff] at h ⊢
  obtain ⟨h1, h2, h3, h4, h5⟩ := h
  push_neg at h2 h3
  refine ⟨?_, ?_, ?_, ?_, ?_⟩
  · simpa [normalizeComment] using h1
  · simp only [normalizeComment]
    rw [jsTrim_idem]
    push_neg
    exact ⟨h2.2, h2.2⟩
  · simp only [normalizeComment]
    rw [jsTrim_idem]
    push_neg
    exact ⟨h3.2, h3.2⟩
  · simpa [normalizeComment] using h4
  · simpa [normalizeComment] using h5

/-- A non-empty list on which a predicate holds everywhere has a member
satisfying it. -/
theorem all_any_of_ne_nil {α : Type} (p : α → Bool) (l : List α)
    (hne : l ≠ []) (hall : l.all p = true) : l.any p = true := by
  cases l with
  | nil => exact absurd rfl hne
  | cons x xs =>
    simp only [List.all_cons, Bool.and_eq_true] at hall
    simp [List.any_cons, hall.1]

/-- Properties of an accepted validateStructuredReview result: non-empty
trimmed summary, at least one comment and every comment valid. -/
theorem validateStructuredReview_valid_props (r : StructuredAIReview)
    (h : (GeminiLLMService.validateStructuredReview r).isValid = true) :
    (GeminiLLMService.validateStructuredReview r).validatedResponse.summary ≠ "" ∧
    (GeminiLLMService.validateStructuredReview r).validatedResponse.comments ≠ [] ∧
    (GeminiLLMService.validateStructuredReview r).validatedResponse.comments.all
      commentCheckOk = true := by
  by_cases hbad : (r.summary = "" || jsTrim r.summary = "") = true
  · exfalso
    unfold GeminiLLMService.validateStructuredReview at h
    simp [hbad] at h
  · have hbad' : (decide (r.summary = "") || decide (jsTrim r.summary = "")) = false := by
      simpa using hbad
    unfold GeminiLLMService.validateStructuredReview at h ⊢
    simp only [hbad', Bool.false_eq_true, if_false, List.isEmpty_nil, Bool.true_and,
      Bool.not_eq_true', List.isEmpty_eq_false] at h
    simp only [hbad', Bool.false_eq_true, if_false]
    refine ⟨?_, h, ?_⟩
    · have : (decide (jsTrim r.summary = "")) = false := by
        rcases Bool.or_eq_false_iff.mp hbad' with ⟨_, h2⟩
        exact h2
      simpa using this
    · rw [List.all_map, List.all_eq_true]
      intro x hx
      exact commentCheckOk_normalize x (List.mem_filter.mp hx).2

/-- Properties of the fallback response constructed by the final gate:
non-empty summary, at least one comment, and at least one comment passing
the per-comment check. -/
theorem finalFallbackResponse_props (fb : List ReviewComment) :
    (GeminiLLMService.finalFallbackResponse fb).summary ≠ "" ∧
    (GeminiLLMService.finalFallbackResponse fb).comments ≠ [] ∧
    (GeminiLLMService.finalFallbackResponse fb).comments.any commentCheckOk = true := by
  cases fb with
  | nil => exact ⟨by decide, by decide, by decide⟩
  | cons x xs =>
    unfold GeminiLLMService.finalFallbackResponse
    simp only [List.isEmpty_cons, Bool.false_eq_true, if_false]
    by_cases hv : (GeminiLLMService.validateStructuredReview
        { summary := "Automated code review encountered technical difficulties. Manual review recommended."
          comments := x :: xs }).isValid = true
    · rw [if_pos hv]
      refine ⟨by simp, by simp, ?_⟩
      unfold GeminiLLMService.validateStructuredReview at hv
      simp only [Bool.and_eq_true, Bool.not_eq_true', List.isEmpty_eq_false] at hv
      obtain ⟨-, hne⟩ := hv
      rcases hf : (x :: xs).filter commentCheckOk with _ | ⟨y, ys⟩
      · rw [hf] at hne
        simp at hne
      · have hy := List.mem_filter.mp (hf ▸ List.mem_cons_self y ys)
        rw [List.any_eq_true]
        exact ⟨y, hy.1, hy.2⟩
    · rw [if_neg hv]
      exact ⟨by simp, by simp, by decide⟩

/-- C1 (amended): for every parsed-response and fallback pair the final
gate yields a non-empty summary, a non-empty comment list containing at
least one valid comment, and, when the parsed response was accepted, only
valid comments. -/
theorem C1_final_gate_guarantees (parsed : Option StructuredAIReview)
    (fb : List ReviewComment) :
    (GeminiLLMService.performFinalValidation parsed fb).validatedResponse.summary ≠ "" ∧
    (GeminiLLMService.performFinalValidation parsed fb).validatedResponse.comments ≠ [] ∧
    (GeminiLLMService.performFinalValidation parsed fb).validatedResponse.comments.any
      commentCheckOk = true ∧
    ((GeminiLLMService.performFinalValidation parsed fb).fallbackUsed ||
      (GeminiLLMService.performFinalValidation parsed fb).validatedResponse.comments.all
        commentCheckOk) = true := by
  obtain ⟨f1, f2, f3⟩ := finalFallbackResponse_props fb
  cases parsed with
  | none => exact ⟨f1, f2, f3, by simp [GeminiLLMService.performFinalValidation]⟩
  | some p =>
    by_cases hv : (GeminiLLMService.validateStructuredReview p).isValid = true
    · obtain ⟨h1, h2, h3⟩ := validateStructuredReview_valid_props p hv
      have hred : GeminiLLMService.performFinalValidation (some p) fb =
          { isValid := true
            validatedResponse := (GeminiLLMService.validateStructuredReview p).validatedResponse
            fallbackUsed := false } := by
        simp [GeminiLLMService.performFinalValidation, hv]
      rw [hred]
      exact ⟨h1, h2, all_any_of_ne_nil _ _ h2 h3, by simp [h3]⟩
    · have hred : GeminiLLMService.performFinalValidation (some p) fb =
          { isValid := false
            validatedResponse := GeminiLLMService.finalFallbackResponse fb
            fallbackUsed := true } := by
        simp [GeminiLLMService.performFinalValidation, hv]
      rw [hred]
      exact ⟨f1, f2, f3, by simp⟩

/-- C1 counterexample: with a null parsed response and a fallback list
mixing a valid and an invalid comment, the gate returns the invalid comment
unchanged, so its output fails the full structural validation stated by the
claim. -/
theorem C1_mixed_fallback_invalid :
    reviewSchemaValidClaim
      (GeminiLLMService.performFinalValidation none
        [sampleGoodComment, sampleBadComment]).validatedResponse = false := by
  decide

/-! ## Helper lemmas: the retry loop -/

/-- Under parse or validation failures on every attempt, the loop spends its
whole remaining budget: one model call per remaining iteration, no parsed
response and no error flag. -/
theorem runAttempts_all_failures (env : Nat → AttemptOutcome) (ctx : PRContext)
    (h : ∀ i, isParseOrValidationFailure (env i) = true) :
    ∀ fuel attempt st, fuel + attempt = MAX_RETRIES + 1 →
      (GeminiLLMService.runAttempts env ctx fuel attempt st).calls = st.calls + fuel ∧
      (GeminiLLMService.runAttempts env ctx fuel attempt st).parsed = st.parsed ∧
      (GeminiLLMService.runAttempts env ctx fuel attempt st).errorSet = st.errorSet := by
  intro fuel
  induction fuel with
  | zero =>
    intro attempt st _
    exact ⟨by simp [GeminiLLMService.runAttempts], rfl, rfl⟩
  | succ fuel ih =>
    intro attempt st hfa
    have hout := h attempt
    have hm : MAX_RETRIES = 8 := rfl
    cases henv : env attempt with
    | success raw review => rw [henv] at hout; simp [isParseOrValidationFailure] at hout
    | apiError s => rw [henv] at hout; simp [isParseOrValidationFailure] at hout
    | otherError => rw [henv] at hout; simp [isParseOrValidationFailure] at hout
    | invalidSchema raw =>
      simp only [GeminiLLMService.runAttempts, henv]
      by_cases hlt : attempt < MAX_RETRIES
      · rw [if_pos hlt]
        obtain ⟨c1, c2, c3⟩ := ih (attempt + 1) _ (by omega)
        refine ⟨?_, by simpa using c2, by simpa using c3⟩
        rw [c1]
        simp
        omega
      · rw [if_neg hlt]
        have hfuel : fuel = 0 := by omega
        subst hfuel
        exact ⟨by simp, rfl, rfl⟩
    | extractParseFail raw =>
      simp only [GeminiLLMService.runAttempts, henv]
      by_cases hlt : attempt < MAX_RETRIES
      · rw [if_pos hlt]
        obtain ⟨c1, c2, c3⟩ := ih (attempt + 1) _ (by omega)
        refine ⟨?_, by simpa using c2, by simpa using c3⟩
        rw [c1]
        simp
        omega
      · rw [if_neg hlt]
        have hfuel : fuel = 0 := by omega
        subst hfuel
        exact ⟨by simp, rfl, rfl⟩
    | noJson raw =>
      simp only [GeminiLLMService.runAttempts, henv]
      by_cases hlt : attempt < MAX_RETRIES
      · rw [if_pos hlt]
        obtain ⟨c1, c2, c3⟩ := ih (attempt + 1) _ (by omega)
        refine ⟨?_, by simpa using c2, by simpa using c3⟩
        rw [c1]
        simp
        omega
      · rw [if_neg hlt]
        have hfuel : fuel = 0 := by omega
        subst hfuel
        exact ⟨by simp, rfl, rfl⟩

/-- Under pure parse or extraction failures on every attempt, the
enhanced-ai-review loop spends its whole remaining budget without
producing a parsed response, fallback comments or an error flag. -/
theorem axios_runAttempts_parse_failures (env : Nat → AxiosAttemptOutcome)
    (ctx : PRContext) (h : ∀ i, isAxiosParseFailure (env i) = true) :
    ∀ fuel attempt st, fuel + attempt = MAX_RETRIES + 1 →
      (EnhancedAIReviewService.runAttempts env ctx fuel attempt st).calls =
        st.calls + fuel ∧
      (EnhancedAIReviewService.runAttempts env ctx fuel attempt st).parsed =
        st.parsed ∧
      (EnhancedAIReviewService.runAttempts env ctx fuel attempt st).fallbackComments =
        st.fallbackComments ∧
      (EnhancedAIReviewService.runAttempts env ctx fuel attempt st).errorSet =
        st.errorSet := by
  intro fuel
  induction fuel with
  | zero =>
    intro attempt st _
    exact ⟨by simp [EnhancedAIReviewService.runAttempts], rfl, rfl, rfl⟩
  | succ fuel ih =>
    intro attempt st hfa
    have hout := h attempt
    cases henv : env attempt with
    | success raw review => rw [henv] at hout; simp [isAxiosParseFailure] at hout
    | invalidSchema raw => rw [henv] at hout; simp [isAxiosParseFailure] at hout
    | apiError s => rw [henv] at hout; simp [isAxiosParseFailure] at hout
    | otherError => rw [henv] at hout; simp [isAxiosParseFailure] at hout
    | extractParseFail raw =>
      simp only [EnhancedAIReviewService.runAttempts, henv]
      by_cases hlt : attempt < MAX_RETRIES
      · rw [if_pos hlt]
        obtain ⟨c1, c2, c3, c4⟩ := ih (attempt + 1) _ (by omega)
        refine ⟨?_, by simpa using c2, by simpa using c3, by simpa using c4⟩
        rw [c1]
        simp
        omega
      · rw [if_neg hlt]
        have hfuel : fuel = 0 := by omega
        subst hfuel
        exact ⟨by simp, rfl, rfl, rfl⟩
    | noJson raw =>
      simp only [EnhancedAIReviewService.runAttempts, henv]
      by_cases hlt : attempt < MAX_RETRIES
      · rw [if_pos hlt]
        obtain ⟨c1, c2, c3, c4⟩ := ih (attempt + 1) _ (by omega)
        refine ⟨?_, by simpa using c2, by simpa using c3, by simpa using c4⟩
        rw [c1]
        simp
        omega
      · rw [if_neg hlt]
        have hfuel : fuel = 0 := by omega
        subst hfuel
        exact ⟨by simp, rfl, rfl, rfl⟩

/-- C2 (amended): when every model attempt fails JSON parsing or schema
validation, the GeminiLLMService orchestrator makes exactly nine model
calls (the initial attempt plus MAX_RETRIES retries), carries at least one
fallback comment through its final gate, and reports success false; when
every attempt fails JSON parsing or extraction, the EnhancedAIReviewService
orchestrator also makes exactly nine model calls but, generating fallbacks
only on final-attempt validation failures, ends with an empty
fallbackComments list and success false. -/
theorem C2_exhausted_budget (env : Nat → AttemptOutcome)
    (envA : Nat → AxiosAttemptOutcome) (ctx : PRContext)
    (h : ∀ i, isParseOrValidationFailure (env i) = true)
    (hA : ∀ i, isAxiosParseFailure (envA i) = true) :
    ((GeminiLLMService.generateEnhancedReview env ctx).calls = 9 ∧
     1 ≤ (GeminiLLMService.generateEnhancedReview env ctx).fallbackComments.length ∧
     (GeminiLLMService.generateEnhancedReview env ctx).success = false) ∧
    ((EnhancedAIReviewService.generateEnhancedReview envA ctx).calls = 9 ∧
     (EnhancedAIReviewService.generateEnhancedReview envA ctx).fallbackComments = [] ∧
     (EnhancedAIReviewService.generateEnhancedReview envA ctx).success = false) := by
  constructor
  · obtain ⟨c1, c2, c3⟩ :=
      runAttempts_all_failures env ctx h (MAX_RETRIES + 1) 0 initLoopState (by simp)
    have hne := (finalFallbackResponse_props
      (GeminiLLMService.runAttempts env ctx (MAX_RETRIES + 1) 0 initLoopState).fallbackComments).2.1
    refine ⟨?_, ?_, ?_⟩
    · simp only [GeminiLLMService.generateEnhancedReview, c1]
      rfl
    · simp only [GeminiLLMService.generateEnhancedReview, c2]
      simp only [GeminiLLMService.performFinalValidation, initLoopState]
      simpa using List.length_pos.mpr hne
    · simp only [GeminiLLMService.generateEnhancedReview, c2]
      simp [GeminiLLMService.performFinalValidation, initLoopState]
  · obtain ⟨a1, a2, a3, a4⟩ :=
      axios_runAttempts_parse_failures envA ctx hA (MAX_RETRIES + 1) 0 initLoopState (by simp)
    refine ⟨?_, ?_, ?_⟩
    · simp only [EnhancedAIReviewService.generateEnhancedReview, a1]
      rfl
    · simp only [EnhancedAIReviewService.generateEnhancedReview, a3]
      rfl
    · simp only [EnhancedAIReviewService.generateEnhancedReview]
      have hs : (EnhancedAIReviewService.runAttempts envA ctx
          (MAX_RETRIES + 1) 0 initLoopState).parsed.isSome = false := by
        rw [a2]
        rfl
      simp [hs]

/-- C2 witness: concrete always-unparseable environments for both variants
satisfy the hypotheses and the conclusion. -/
theorem C2_exhausted_budget_witness :
    (∀ i : Nat, isParseOrValidationFailure
      ((fun _ => AttemptOutcome.noJson "plain text") i) = true) ∧
    (∀ i : Nat, isAxiosParseFailure
      ((fun _ => AxiosAttemptOutcome.noJson "plain text") i) = true) ∧
    (((GeminiLLMService.generateEnhancedReview
        (fun _ => AttemptOutcome.noJson "plain text") sampleCtx).calls = 9 ∧
      1 ≤ (GeminiLLMService.generateEnhancedReview
        (fun _ => AttemptOutcome.noJson "plain text") sampleCtx).fallbackComments.length ∧
      (GeminiLLMService.generateEnhancedReview
        (fun _ => AttemptOutcome.noJson "plain text") sampleCtx).success = false) ∧
     ((EnhancedAIReviewService.generateEnhancedReview
        (fun _ => AxiosAttemptOutcome.noJson "plain text") sampleCtx).calls = 9 ∧
      (EnhancedAIReviewService.generateEnhancedReview
        (fun _ => AxiosAttemptOutcome.noJson "plain text") sampleCtx).fallbackComments = [] ∧
      (EnhancedAIReviewService.generateEnhancedReview
        (fun _ => AxiosAttemptOutcome.noJson "plain text") sampleCtx).success = false)) :=
  ⟨fun _ => rfl, fun _ => rfl,
   C2_exhausted_budget (fun _ => AttemptOutcome.noJson "plain text")
     (fun _ => AxiosAttemptOutcome.noJson "plain text") sampleCtx
     (fun _ => rfl) (fun _ => rfl)⟩

/-- C2 counterexample: with every response unparseable, the loop makes nine
model calls, not the eight stated by the claim, and the enhanced-ai-review
variant ends with an empty fallbackComments list rather than length at
least one. -/
theorem C2_eight_attempts_and_fallback_refuted :
    ¬ ((GeminiLLMService.generateEnhancedReview
      (fun _ => AttemptOutcome.noJson "plain text") sampleCtx).calls = 8) ∧
    ¬ (1 ≤ (EnhancedAIReviewService.generateEnhancedReview
      (fun _ => AxiosAttemptOutcome.noJson "plain text") sampleCtx).fallbackComments.length) := by
  exact ⟨by decide, by decide⟩

/-- C4 (amended): schema-validation failures and transient server errors
back off with the capped schedule, but JSON parse and extraction failures
back off with the uncapped schedule that doubles past 24000. -/
theorem C4_backoff_schedules :
    (GeminiLLMService.generateEnhancedReview
      (fun _ => AttemptOutcome.invalidSchema "bad schema") sampleCtx).delays =
      [3000, 6000, 12000, 24000, 24000, 24000, 24000, 24000] ∧
    (GeminiLLMService.generateEnhancedReview
      (fun _ => AttemptOutcome.apiError 500) sampleCtx).delays =
      [3000, 6000, 12000, 24000, 24000, 24000, 24000, 24000] ∧
    (GeminiLLMService.generateEnhancedReview
      (fun _ => AttemptOutcome.apiError 502) sampleCtx).delays =
      [3000, 6000, 12000, 24000, 24000, 24000, 24000, 24000] ∧
    (GeminiLLMService.generateEnhancedReview
      (fun _ => AttemptOutcome.apiError 503) sampleCtx).delays =
      [3000, 6000, 12000, 24000, 24000, 24000, 24000, 24000] ∧
    (GeminiLLMService.generateEnhancedReview
      (fun _ => AttemptOutcome.noJson "plain text") sampleCtx).delays =
      [3000, 6000, 12000, 24000, 48000, 96000, 192000, 384000] ∧
    (∀ i, cappedRetryDelay i = 3000 * 2 ^ min i 3) ∧
    (∀ i, parseFailureDelay i = 3000 * 2 ^ i) := by
  refine ⟨by rfl, by rfl, by rfl, by rfl, by rfl, fun i => rfl, fun i => rfl⟩

/-- C4 counterexample: the delay recorded after the parse failure at attempt
index four is 48000, not the capped 24000 the claim states for parse-failure
retries. -/
theorem C4_parse_delay_uncapped :
    (GeminiLLMService.generateEnhancedReview
      (fun _ => AttemptOutcome.noJson "plain text") sampleCtx).delays.get? 4 = some 48000 ∧
    ¬ ((GeminiLLMService.generateEnhancedReview
      (fun _ => AttemptOutcome.noJson "plain text") sampleCtx).delays.get? 4 =
        some (RETRY_DELAY_MS * 2 ^ min 4 3)) := by
  exact ⟨by rfl, by decide⟩

/-- C5 (amended): rate-limited attempts are retried only while the shared
attempt index is below five, with delay 8000 times two to the shared
attempt index; a pure rate-limit run gives the stated schedule, but a
preceding non-429 attempt consumes budget and inflates the delays. -/
theorem C5_rate_limit_shared_counter :
    (GeminiLLMService.generateEnhancedReview
      (fun _ => AttemptOutcome.apiError 429) sampleCtx).delays =
      [8000, 16000, 32000, 64000, 128000] ∧
    (GeminiLLMService.generateEnhancedReview
      (fun _ => AttemptOutcome.apiError 429) sampleCtx).calls = 6 ∧
    (GeminiLLMService.generateEnhancedReview
      (fun i => if i = 0 then AttemptOutcome.noJson "plain text"
                else AttemptOutcome.apiError 429) sampleCtx).delays =
      [3000, 16000, 32000, 64000, 128000] ∧
    (GeminiLLMService.generateEnhancedReview
      (fun i => if i = 0 then AttemptOutcome.noJson "plain text"
                else AttemptOutcome.apiError 429) sampleCtx).calls = 6 ∧
    (∀ i, rateLimitDelay i = 8000 * 2 ^ i) := by
  refine ⟨by rfl, by rfl, by rfl, by rfl, fun i => rfl⟩

/-- C5 counterexample: after one parse failure, the first rate-limit retry
waits 16000 milliseconds, not the 8000 an independent rate-limit counter
would give. -/
theorem C5_first_rate_limit_delay_inflated :
    (GeminiLLMService.generateEnhancedReview
      (fun i => if i = 0 then AttemptOutcome.noJson "plain text"
                else AttemptOutcome.apiError 429) sampleCtx).delays.get? 1 = some 16000 ∧
    ¬ ((GeminiLLMService.generateEnhancedReview
      (fun i => if i = 0 then AttemptOutcome.noJson "plain text"
                else AttemptOutcome.apiError 429) sampleCtx).delays.get? 1 =
        some (RATE_LIMIT_BACKOFF_MS * 2 ^ 0)) := by
  exact ⟨by rfl, by decide⟩

/-- C9 counterexample: the EnhancedAIReviewService variant returns no
comment at all for an empty changed-file list, not the single unknown-path
comment the claim states. -/
theorem C9_axios_empty_no_comment :
    ¬ ((EnhancedAIReviewService.generateFallbackComments "any response"
      { repo := "octo/demo", prNumber := 1, changedFiles := [] }).length = 1) := by
  decide

/-! ## Helper lemmas: the JSON checker accepts printed documents -/

/-- Hexadecimal digit characters are hexadecimal digits. -/
theorem hexDigitChar_isHex : ∀ n, n < 16 → isHexC (hexDigitChar n) = true := by
  decide

/-- Skipping whitespace before a non-whitespace head is the identity. -/
theorem skipWs_cons_not {c : Char} (h : isJsonWsC c = false) (l : List Char) :
    skipWsL (c :: l) = c :: l := by
  simp [skipWsL, List.dropWhile_cons, h]

set_option maxHeartbeats 1600000 in
/-- Unfolding of the string-body checker at a closing quote. -/
theorem psb_quote (rest : List Char) : parseStrBody ('"' :: rest) = some rest := by
  rw [parseStrBody.eq_def]
  dsimp only
  rw [if_pos rfl]

/-- Unfolding of the string-body checker at a two-character escape. -/
theorem psb_esc2 (x : Char)
    (hx : (decide (x = '"') || decide (x = '\\') || decide (x = '/') || decide (x = 'b') ||
      decide (x = 'f') || decide (x = 'n') || decide (x = 'r') || decide (x = 't')) = true)
    (rest : List Char) : parseStrBody ('\\' :: x :: rest) = parseStrBody rest := by
  rw [parseStrBody.eq_def]
  dsimp only
  rw [if_neg (by decide), if_pos rfl, if_pos hx]

/-- Unfolding of the string-body checker at a unicode escape. -/
theorem psb_u (a b c d : Char)
    (ha : isHexC a = true) (hb : isHexC b = true) (hc : isHexC c = true) (hd : isHexC d = true)
    (rest : List Char) :
    parseStrBody ('\\' :: 'u' :: a :: b :: c :: d :: rest) = parseStrBody rest := by
  rw [parseStrBody.eq_def]
  dsimp only
  rw [if_neg (by decide), if_pos rfl, if_neg (by decide), if_pos rfl]
  rw [ha, hb, hc, hd]
  simp

/-- Unfolding of the string-body checker at a plain character. -/
theorem psb_plain (c : Char) (h1 : ¬ (c = '"')) (h2 : ¬ (c = '\\')) (h8 : ¬ (c.toNat < 32))
    (rest : List Char) : parseStrBody (c :: rest) = parseStrBody rest := by
  rw [parseStrBody.eq_def]
  dsimp only
  rw [if_neg h1, if_neg h2, if_neg h8]

/-- The string-body checker consumes an escaped string body up to the
closing quote. -/
theorem parseStrBody_print : ∀ (s rest : List Char),
    parseStrBody (escStringL s ++ '"' :: rest) = some rest := by
  intro s
  induction s with
  | nil =>
    intro rest
    rw [show escStringL [] ++ '"' :: rest = '"' :: rest from by simp [escStringL]]
    exact psb_quote rest
  | cons c cs ih =>
    intro rest
    rw [show escStringL (c :: cs) ++ '"' :: rest = escChar c ++ (escStringL cs ++ '"' :: rest) from by
      simp [escStringL]]
    unfold escChar
    split_ifs with h1 h2 h3 h4 h5 h6 h7 h8 <;>
      simp only [List.cons_append, List.nil_append]
    · rw [psb_esc2 '"' (by decide)]
      exact ih rest
    · rw [psb_esc2 '\\' (by decide)]
      exact ih rest
    · rw [psb_esc2 'b' (by decide)]
      exact ih rest
    · rw [psb_esc2 't' (by decide)]
      exact ih rest
    · rw [psb_esc2 'n' (by decide)]
      exact ih rest
    · rw [psb_esc2 'f' (by decide)]
      exact ih rest
    · rw [psb_esc2 'r' (by decide)]
      exact ih rest
    · rw [psb_u '0' '0' (hexDigitChar (c.toNat / 16)) (hexDigitChar (c.toNat % 16))
        (by decide) (by decide) (hexDigitChar_isHex _ (by omega)) (hexDigitChar_isHex _ (by omega))]
      exact ih rest
    · rw [psb_plain c h1 h2 h8]
      exact ih rest

/-- Decimal digit characters are digits. -/
theorem digitChar_isDigit : ∀ m, m < 10 → isDigitC (digitChar m) = true := by decide

/-- Decimal digit characters of positive digits are not zero. -/
theorem digitChar_ne_zero : ∀ m, 1 ≤ m → m < 10 → digitChar m ≠ '0' := by decide

/-- The printed digits of a number form a non-empty digit list whose head is
nonzero for positive numbers. -/
theorem natDigitsGo_spec : ∀ fuel n, n < fuel →
    ∃ d ds, natDigitsGo fuel n = d :: ds ∧ isDigitC d = true ∧ (1 ≤ n → d ≠ '0') ∧
      ds.all isDigitC = true := by
  intro fuel
  induction fuel with
  | zero => intro n h; omega
  | succ fuel ih =>
    intro n h
    by_cases h10 : n < 10
    · refine ⟨digitChar n, [], ?_, digitChar_isDigit n h10,
        fun h1 => digitChar_ne_zero n h1 h10, rfl⟩
      simp [natDigitsGo, h10]
    · have hrec : n / 10 < fuel := by
        have h1 : n / 10 < n := Nat.div_lt_self (by omega) (by omega)
        omega
      obtain ⟨d, ds, hd, hdig, hnz, hall⟩ := ih (n / 10) hrec
      refine ⟨d, ds ++ [digitChar (n % 10)], ?_, hdig, fun _ => hnz (by omega), ?_⟩
      · simp [natDigitsGo, h10, hd]
      · simp [List.all_append, hall, digitChar_isDigit (n % 10) (Nat.mod_lt n (by omega))]

/-- Dropping a satisfied prefix skips past an all-satisfying list. -/
theorem dropWhile_all_append (p : Char → Bool) :
    ∀ (l r : List Char), l.all p = true → (l ++ r).dropWhile p = r.dropWhile p := by
  intro l r
  induction l with
  | nil => intro _; rfl
  | cons c cs ih =>
    intro h
    simp only [List.all_cons, Bool.and_eq_true] at h
    simp [List.dropWhile_cons, h.1, ih h.2]

/-- A digit differs from any concrete non-digit character. -/
theorem isDigitC_ne (x : Char) (h : isDigitC x = true) (y : Char)
    (hy : isDigitC y = false) : x ≠ y := by
  intro he
  rw [he, hy] at h
  exact Bool.false_ne_true h

/-- A digit is not JSON whitespace. -/
theorem isDigitC_not_ws (x : Char) (h : isDigitC x = true) : isJsonWsC x = false := by
  by_contra hw
  have hw' : isJsonWsC x = true := by
    revert hw
    cases isJsonWsC x <;> simp
  simp only [isJsonWsC, Bool.or_eq_true, decide_eq_true_eq] at hw'
  have hcases : x = ' ' ∨ x = '\t' ∨ x = '\n' ∨ x = '\r' := by tauto
  rcases hcases with h1 | h1 | h1 | h1 <;> (subst h1; exact absurd h (by decide))

/-- The number checker consumes printed decimal digits up to a boundary
character that cannot extend a number. -/
theorem parseNumber_print (n : Nat) (c : Char) (cs : List Char)
    (hcd : isDigitC c = false) (hcp : c ≠ '.') (hce : c ≠ 'e') (hcE : c ≠ 'E') :
    parseNumber (natDigitsL n ++ c :: cs) = some (c :: cs) := by
  by_cases h0 : n = 0
  · subst h0
    rw [show natDigitsL 0 ++ c :: cs = '0' :: c :: cs from rfl]
    simp [parseNumber, parseIntPart, List.dropWhile_cons, hcd, hcp, hce, hcE]
  · obtain ⟨d, ds, hd, hdig, hnz, hall⟩ := natDigitsGo_spec (n + 1) n (by omega)
    have hd0 : d ≠ '0' := hnz (by omega)
    have hlist : natDigitsL n ++ c :: cs = d :: (ds ++ c :: cs) := by
      rw [natDigitsL, hd]
      simp
    rw [hlist]
    have hdm : d ≠ '-' := isDigitC_ne d hdig '-' (by decide)
    simp [parseNumber, parseIntPart, hdm, hd0, hdig,
      dropWhile_all_append _ _ _ hall, List.dropWhile_cons, hcd, hcp, hce, hcE]


/-- The quote character is not the opening brace. -/
@[simp] theorem quote_ne_lbrace : (('"' : Char) = lbrace) = False := eq_false (by decide)

/-- The quote character is not an opening bracket. -/
@[simp] theorem quote_ne_lbrack : (('"' : Char) = '[') = False := eq_false (by decide)

/-- The quote character is not the closing brace. -/
@[simp] theorem quote_ne_rbrace : (('"' : Char) = rbrace) = False := eq_false (by decide)

/-- The opening bracket is not the opening brace. -/
@[simp] theorem lbrack_ne_lbrace : (('[' : Char) = lbrace) = False := eq_false (by decide)

/-- The opening brace is not a closing bracket. -/
@[simp] theorem lbrace_ne_rbrack : ((lbrace : Char) = ']') = False := eq_false (by decide)

/-- The comma is not the closing brace. -/
@[simp] theorem comma_ne_rbrace : ((',' : Char) = rbrace) = False := eq_false (by decide)

/-- The comma is not a closing bracket. -/
@[simp] theorem comma_ne_rbrack : ((',' : Char) = ']') = False := eq_false (by decide)

/-- The quote character is not JSON whitespace. -/
@[simp] theorem ws_quote : isJsonWsC '"' = false := by decide

/-- The colon is not JSON whitespace. -/
@[simp] theorem ws_colon : isJsonWsC ':' = false := by decide

/-- The comma is not JSON whitespace. -/
@[simp] theorem ws_comma : isJsonWsC ',' = false := by decide

/-- The opening brace is not JSON whitespace. -/
@[simp] theorem ws_lbrace : isJsonWsC lbrace = false := by decide

/-- The closing brace is not JSON whitespace. -/
@[simp] theorem ws_rbrace : isJsonWsC rbrace = false := by decide

/-- The opening bracket is not JSON whitespace. -/
@[simp] theorem ws_lbrack : isJsonWsC '[' = false := by decide

/-- The closing bracket is not JSON whitespace. -/
@[simp] theorem ws_rbrack : isJsonWsC ']' = false := by decide

/-- The checker accepts a printed string value. -/
theorem pv_string (fuel : Nat) (s rest : List Char) :
    parseRun (fuel + 1) PMode.value (printStrL s ++ rest) = some rest := by
  rw [show printStrL s ++ rest = '"' :: (escStringL s ++ '"' :: rest) from by simp [printStrL]]
  simp [parseRun, parseStrBody_print]

/-- Exposure of the leading quote of a printed string. -/
theorem printStr_cons (s Y : List Char) :
    printStrL s ++ Y = '"' :: (escStringL s ++ '"' :: Y) := by
  simp [printStrL]

/-- Whitespace skipping is the identity before a printed string. -/
theorem skipWs_printStr (v Y : List Char) :
    skipWsL (printStrL v ++ Y) = printStrL v ++ Y := by
  rw [printStr_cons]
  simp [skipWsL, List.dropWhile_cons]

/-- Whitespace skipping is the identity before printed digits. -/
theorem skipWs_natDigits (n : Nat) (Y : List Char) :
    skipWsL (natDigitsL n ++ Y) = natDigitsL n ++ Y := by
  obtain ⟨d, ds, hd, hdig, -, -⟩ := natDigitsGo_spec (n + 1) n (by omega)
  rw [show natDigitsL n ++ Y = d :: (ds ++ Y) from by rw [natDigitsL, hd]; simp]
  simp [skipWsL, List.dropWhile_cons, isDigitC_not_ws d hdig]

/-- The checker accepts a printed number value up to a boundary
character. -/
theorem pv_number (fuel n : Nat) (c : Char) (cs : List Char)
    (hcd : isDigitC c = false) (hcp : c ≠ '.') (hce : c ≠ 'e') (hcE : c ≠ 'E') :
    parseRun (fuel + 1) PMode.value (natDigitsL n ++ c :: cs) = some (c :: cs) := by
  obtain ⟨d, ds, hd, hdig, -, -⟩ := natDigitsGo_spec (n + 1) n (by omega)
  have hlist : natDigitsL n ++ c :: cs = d :: (ds ++ c :: cs) := by
    rw [natDigitsL, hd]
    simp
  have h1 : ¬ (d = lbrace) := isDigitC_ne d hdig lbrace (by decide)
  have h2 : ¬ (d = '[') := isDigitC_ne d hdig '[' (by decide)
  have h3 : ¬ (d = '"') := isDigitC_ne d hdig '"' (by decide)
  have h4 : ¬ (d = 't') := isDigitC_ne d hdig 't' (by decide)
  have h5 : ¬ (d = 'f') := isDigitC_ne d hdig 'f' (by decide)
  have h6 : ¬ (d = 'n') := isDigitC_ne d hdig 'n' (by decide)
  rw [hlist]
  simp only [parseRun]
  rw [if_neg h1, if_neg h2, if_neg h3, if_neg h4, if_neg h5, if_neg h6,
    if_pos (by simp [hdig])]
  rw [← hlist]
  exact parseNumber_print n c cs hcd hcp hce hcE

/-- dropWhile form of skipWs_printStr. -/
theorem dropWs_printStr (v Y : List Char) :
    List.dropWhile isJsonWsC (printStrL v ++ Y) = printStrL v ++ Y :=
  skipWs_printStr v Y

/-- dropWhile form of skipWs_natDigits. -/
theorem dropWs_natDigits (n : Nat) (Y : List Char) :
    List.dropWhile isJsonWsC (natDigitsL n ++ Y) = natDigitsL n ++ Y :=
  skipWs_natDigits n Y

/-- Member step: a printed string member followed by a comma continues
with the next member. -/
theorem pm_step_string (fuel : Nat) (k v X : List Char) :
    parseRun (fuel + 2) PMode.member
      ('"' :: (escStringL k ++ '"' :: (':' :: (printStrL v ++ ',' :: X)))) =
      parseRun (fuel + 1) PMode.member (skipWsL X) := by
  rw [parseRun]
  rw [if_pos rfl, parseStrBody_print, Option.some_bind]
  rw [show skipWsL (':' :: (printStrL v ++ ',' :: X)) =
      ':' :: (printStrL v ++ ',' :: X) from by simp [skipWsL, List.dropWhile_cons]]
  simp [dropWs_printStr, pv_string, skipWsL, List.dropWhile_cons]

/-- Member step: a printed number member followed by a comma continues
with the next member. -/
theorem pm_step_number (fuel : Nat) (k : List Char) (n : Nat) (X : List Char) :
    parseRun (fuel + 2) PMode.member
      ('"' :: (escStringL k ++ '"' :: (':' :: (natDigitsL n ++ ',' :: X)))) =
      parseRun (fuel + 1) PMode.member (skipWsL X) := by
  have hv : parseRun (fuel + 1) PMode.value
      (List.dropWhile isJsonWsC (natDigitsL n ++ ',' :: X)) = some (',' :: X) := by
    rw [dropWs_natDigits]
    exact pv_number fuel n ',' X (by decide) (by decide) (by decide) (by decide)
  rw [parseRun]
  rw [if_pos rfl, parseStrBody_print, Option.some_bind]
  rw [show skipWsL (':' :: (natDigitsL n ++ ',' :: X)) =
      ':' :: (natDigitsL n ++ ',' :: X) from by simp [skipWsL, List.dropWhile_cons]]
  simp [hv, skipWsL, List.dropWhile_cons]

/-- Member step: a final printed string member followed by the closing
brace ends the object. -/
theorem pm_last_string (fuel : Nat) (k v rest : List Char) :
    parseRun (fuel + 2) PMode.member
      ('"' :: (escStringL k ++ '"' :: (':' :: (printStrL v ++ rbrace :: rest)))) =
      some rest := by
  rw [parseRun]
  rw [if_pos rfl, parseStrBody_print, Option.some_bind]
  rw [show skipWsL (':' :: (printStrL v ++ rbrace :: rest)) =
      ':' :: (printStrL v ++ rbrace :: rest) from by simp [skipWsL, List.dropWhile_cons]]
  simp [dropWs_printStr, pv_string, skipWsL, List.dropWhile_cons]

/-- Whitespace skipping is the identity before a quote. -/
theorem skipWs_quote (t : List Char) : skipWsL ('"' :: t) = '"' :: t := by
  simp [skipWsL, List.dropWhile_cons]

/-- Opening an object whose first member starts immediately hands off to
member mode. -/
theorem pv_obj_quote (fuel : Nat) (t : List Char) :
    parseRun (fuel + 2) PMode.value (lbrace :: ('"' :: t)) =
      parseRun (fuel + 1) PMode.member ('"' :: t) := by
  simp [parseRun, skipWsL, List.dropWhile_cons]

/-- pm_step_string with the value string exposed. -/
theorem pm_step_string2 (fuel : Nat) (k v X : List Char) :
    parseRun (fuel + 2) PMode.member
      ('"' :: (escStringL k ++ '"' :: (':' ::
        ('"' :: (escStringL v ++ '"' :: (',' :: X)))))) =
      parseRun (fuel + 1) PMode.member (skipWsL X) := by
  rw [show ('"' :: (escStringL v ++ '"' :: (',' :: X))) =
      printStrL v ++ ',' :: X from (printStr_cons v _).symm]
  exact pm_step_string fuel k v X

/-- pm_last_string with the value string exposed. -/
theorem pm_last_string2 (fuel : Nat) (k v rest : List Char) :
    parseRun (fuel + 2) PMode.member
      ('"' :: (escStringL k ++ '"' :: (':' ::
        ('"' :: (escStringL v ++ '"' :: (rbrace :: rest)))))) =
      some rest := by
  rw [show ('"' :: (escStringL v ++ '"' :: (rbrace :: rest))) =
      printStrL v ++ rbrace :: rest from (printStr_cons v _).symm]
  exact pm_last_string fuel k v rest

/-- The checker accepts a printed comment fragment with six units of
fuel. -/
theorem pv_frag (fuel : Nat) (f : FragComment) (rest : List Char) :
    parseRun (fuel + 6) PMode.value (printFragL f ++ rest) = some rest := by
  rw [show printFragL f ++ rest =
      lbrace :: ('"' :: (escStringL "filePath".data ++ '"' :: (':' ::
        ('"' :: (escStringL f.filePath ++ '"' :: (',' ::
          ('"' :: (escStringL "line".data ++ '"' :: (':' ::
            (natDigitsL f.line ++ ',' ::
              ('"' :: (escStringL "code".data ++ '"' :: (':' ::
                ('"' :: (escStringL f.code ++ '"' :: (',' ::
                  ('"' :: (escStringL "severity".data ++ '"' :: (':' ::
                    ('"' :: (escStringL f.severity ++ '"' ::
                      (rbrace :: rest)))))))))))))))))))))) from by
    simp [printFragL, printStrL]]
  rw [pv_obj_quote]
  rw [pm_step_string2]
  rw [skipWs_quote]
  rw [pm_step_number]
  rw [skipWs_quote]
  rw [pm_step_string2]
  rw [skipWs_quote]
  rw [pm_last_string2]

/-- Decomposition of the printed array body into head element and tail. -/
theorem join_decomp : ∀ (fs : List FragComment) (f : FragComment),
    joinFragsL (f :: fs) = printFragL f ++ joinTailL fs := by
  intro fs
  induction fs with
  | nil => intro f; simp [joinFragsL, joinTailL]
  | cons g gs ih =>
    intro f
    simp [joinFragsL, joinTailL, ih g]

/-- Whitespace skipping is the identity before a printed fragment. -/
theorem skipWs_printFrag (f : FragComment) (Y : List Char) :
    skipWsL (printFragL f ++ Y) = printFragL f ++ Y := by
  simp [printFragL, skipWsL, List.dropWhile_cons]

/-- The checker consumes a printed array tail in element-continuation
mode. -/
theorem pe_chain (fs : List FragComment) : ∀ (fuel : Nat) (rest : List Char),
    parseRun (7 * fs.length + fuel + 1) PMode.elemCont (joinTailL fs ++ ']' :: rest) =
      some rest := by
  induction fs with
  | nil =>
    intro fuel rest
    simp [joinTailL, parseRun, skipWsL, List.dropWhile_cons]
  | cons f gs IH =>
    intro fuel rest
    have hval : parseRun (7 * gs.length + fuel + 7) PMode.value
        (List.dropWhile isJsonWsC (printFragL f ++ (joinTailL gs ++ ']' :: rest))) =
        some (joinTailL gs ++ ']' :: rest) := by
      rw [show List.dropWhile isJsonWsC (printFragL f ++ (joinTailL gs ++ ']' :: rest)) =
          printFragL f ++ (joinTailL gs ++ ']' :: rest) from
        skipWs_printFrag f (joinTailL gs ++ ']' :: rest)]
      exact pv_frag (7 * gs.length + fuel + 1) f (joinTailL gs ++ ']' :: rest)
    have hcont : parseRun (7 * gs.length + fuel + 7) PMode.elemCont
        (joinTailL gs ++ ']' :: rest) = some rest := by
      rw [show 7 * gs.length + fuel + 7 = 7 * gs.length + (fuel + 6) + 1 from by ring]
      exact IH (fuel + 6) rest
    rw [show 7 * (f :: gs).length + fuel + 1 = (7 * gs.length + fuel + 7) + 1 from by
      simp [List.length_cons]
      ring]
    rw [show joinTailL (f :: gs) ++ ']' :: rest =
        ',' :: (printFragL f ++ (joinTailL gs ++ ']' :: rest)) from by simp [joinTailL]]
    rw [parseRun]
    simp [skipWsL, List.dropWhile_cons, hval, hcont]

/-- Exposure of the leading brace of a printed fragment. -/
theorem printFrag_cons (f : FragComment) (Y : List Char) :
    printFragL f ++ Y =
      lbrace :: (printStrL "filePath".data ++ ':' :: (printStrL f.filePath ++ ',' ::
        (printStrL "line".data ++ ':' :: (natDigitsL f.line ++ ',' ::
          (printStrL "code".data ++ ':' :: (printStrL f.code ++ ',' ::
            (printStrL "severity".data ++ ':' :: (printStrL f.severity ++
              rbrace :: Y)))))))) := by
  simp [printFragL]

/-- Opening an array whose first element is an object hands off to a
value parse followed by element continuation. -/
theorem pv_arr_open (fuel : Nat) (t : List Char) :
    parseRun (fuel + 2) PMode.value ('[' :: (lbrace :: t)) =
      (parseRun (fuel + 1) PMode.value (lbrace :: t)).bind
        (parseRun (fuel + 1) PMode.elemCont) := by
  simp [parseRun, skipWsL, List.dropWhile_cons]

/-- The checker accepts a printed comment array. -/
theorem pv_arr (cs : List FragComment) (fuel : Nat) (rest : List Char) :
    parseRun (7 * cs.length + fuel + 2) PMode.value
      ('[' :: (joinFragsL cs ++ ']' :: rest)) = some rest := by
  cases cs with
  | nil => simp [joinFragsL, parseRun, skipWsL, List.dropWhile_cons]
  | cons f gs =>
    rw [show 7 * (f :: gs).length + fuel + 2 = (7 * gs.length + fuel + 7) + 2 from by
      simp [List.length_cons]
      ring]
    rw [join_decomp]
    rw [List.append_assoc]
    rw [printFrag_cons]
    rw [pv_arr_open]
    rw [← printFrag_cons]
    rw [show (7 * gs.length + fuel + 7) + 1 = (7 * gs.length + fuel + 2) + 6 from by ring]
    rw [pv_frag]
    rw [Option.some_bind]
    rw [show (7 * gs.length + fuel + 2) + 6 = 7 * gs.length + (fuel + 7) + 1 from by ring]
    exact pe_chain gs (fuel + 7) rest

/-- Member step: the final member whose value is the printed comment
array, closed by the object brace. -/
theorem pm_last_arr (fuel : Nat) (cs : List FragComment) (rest : List Char) :
    parseRun ((7 * cs.length + fuel + 2) + 1) PMode.member
      ('"' :: (escStringL "comments".data ++ '"' :: (':' ::
        ('[' :: (joinFragsL cs ++ ']' :: (rbrace :: rest)))))) = some rest := by
  have hv : parseRun (7 * cs.length + fuel + 2) PMode.value
      ('[' :: (joinFragsL cs ++ ']' :: (rbrace :: rest))) =
      some (rbrace :: rest) := pv_arr cs fuel (rbrace :: rest)
  rw [parseRun]
  rw [if_pos rfl, parseStrBody_print, Option.some_bind]
  rw [show skipWsL (':' :: ('[' :: (joinFragsL cs ++ ']' :: (rbrace :: rest)))) =
      ':' :: ('[' :: (joinFragsL cs ++ ']' :: (rbrace :: rest))) from by
    simp [skipWsL, List.dropWhile_cons]]
  simp [hv, skipWsL, List.dropWhile_cons]

/-- The checker accepts a printed document with linear fuel. -/
theorem pv_doc (fuel : Nat) (d : FragDoc) (rest : List Char) :
    parseRun (7 * d.comments.length + fuel + 5) PMode.value
      (stringifyDocL d ++ rest) = some rest := by
  rw [show stringifyDocL d ++ rest =
      lbrace :: ('"' :: (escStringL "summary".data ++ '"' :: (':' ::
        ('"' :: (escStringL d.summary ++ '"' :: (',' ::
          ('"' :: (escStringL "comments".data ++ '"' :: (':' ::
            ('[' :: (joinFragsL d.comments ++ ']' ::
              (rbrace :: rest)))))))))))) from by
    simp [stringifyDocL, printStrL]]
  rw [show 7 * d.comments.length + fuel + 5 = (7 * d.comments.length + fuel + 3) + 2 from by
    ring]
  rw [pv_obj_quote]
  rw [show (7 * d.comments.length + fuel + 3) + 1 =
      (7 * d.comments.length + fuel + 2) + 2 from by ring]
  rw [pm_step_string2]
  rw [skipWs_quote]
  exact pm_last_arr fuel d.comments rest

/-- A printed fragment is at least seven characters long. -/
theorem printFragL_len (f : FragComment) : 7 ≤ (printFragL f).length := by
  simp [printFragL, printStrL, List.length_append]
  omega

/-- The printed array body is long enough to pay for the parser fuel. -/
theorem joinFragsL_len : ∀ fs : List FragComment,
    7 * fs.length ≤ (joinFragsL fs).length + 1 := by
  intro fs
  induction fs with
  | nil => simp [joinFragsL]
  | cons f gs ih =>
    cases gs with
    | nil =>
      have hf := printFragL_len f
      simp [joinFragsL]
      omega
    | cons g hs =>
      have hf := printFragL_len f
      simp [joinFragsL, List.length_append, List.length_cons] at ih ⊢
      omega

/-- The printed document is long enough to pay for the parser fuel. -/
theorem stringifyDocL_len (d : FragDoc) :
    7 * d.comments.length + 5 ≤ (stringifyDocL d).length + 1 := by
  have h1 := joinFragsL_len d.comments
  simp [stringifyDocL, printStrL, List.length_append, List.length_cons]
  omega

/-- A printed document passes the JSON validity check. -/
theorem jsonValidL_stringifyDoc (d : FragDoc) :
    jsonValidL (stringifyDocL d) = true := by
  have hlen := stringifyDocL_len d
  have hparse : parseRun ((stringifyDocL d).length + 1) PMode.value
      (stringifyDocL d) = some [] := by
    have h2 := pv_doc ((stringifyDocL d).length + 1 - (7 * d.comments.length + 5)) d []
    rw [List.append_nil] at h2
    rw [show (stringifyDocL d).length + 1 =
        7 * d.comments.length +
          ((stringifyDocL d).length + 1 - (7 * d.comments.length + 5)) + 5 from by
      omega]
    exact h2
  have hws : skipWsL (stringifyDocL d) = stringifyDocL d := by
    rw [stringifyDocL]
    simp [skipWsL, List.dropWhile_cons]
  rw [jsonValidL, hws, hparse]
  simp [skipWsL]

/-- Every output of the fragment reconstruction fallback is valid JSON. -/
theorem reconstruct_valid (s : String) :
    ∃ r, GeminiLLMService.reconstructJsonFromFragments s = some r ∧
      jsonValid r = true := by
  simp only [GeminiLLMService.reconstructJsonFromFragments]
  cases h3 : commentsCaptureScan (s.data.length + 1) s.data with
  | none => exact ⟨_, rfl, by simp [jsonValid, jsonValidL_stringifyDoc]⟩
  | some t => exact ⟨_, rfl, by simp [jsonValid, jsonValidL_stringifyDoc]⟩

/-- C3: the schema-validation variant of extractValidJson always
terminates and returns either none or a string whose reparse succeeds;
the enhanced-ai-review variant can return a string that does not reparse
(see the counterexample). -/
theorem C3_gemini_extract_sound (s : String) :
    GeminiLLMService.extractValidJson s = none ∨
      ∃ r : String, GeminiLLMService.extractValidJson s = some r ∧
        jsonValid r = true := by
  simp only [GeminiLLMService.extractValidJson]
  cases h : extractBraceSlice (cleanupResponse s.data) with
  | none => exact Or.inl rfl
  | some slice =>
    right
    by_cases h1 : jsonValidL (jsTrimL slice) = true
    · exact ⟨String.mk (jsTrimL slice), by simp [h1], by simp [jsonValid, h1]⟩
    · by_cases h2 : jsonValidL (repairJsonString (jsTrimL slice)) = true
      · exact ⟨String.mk (repairJsonString (jsTrimL slice)), by simp [h1, h2],
          by simp [jsonValid, h2]⟩
      · obtain ⟨r, hr, hv⟩ := reconstruct_valid s
        exact ⟨r, by simp [h1, h2, hr], hv⟩

/-- C3 counterexample: the enhanced-ai-review variant returns the
repaired string without re-parsing it, so it can return a string that is
not valid JSON. -/
theorem C3_axios_extract_unchecked :
    EnhancedAIReviewService.extractValidJson "\x7bgarbage\x7d" =
        some "\x7bgarbage\x7d" ∧
      jsonValid "\x7bgarbage\x7d" = false := by
  constructor
  · decide
  · decide
